import Mathlib

/-!
# Verified model of the embedding cache service

A shallow embedding of `ml/serving/ml_service/services/embedding_cache_service.py`
from the stocks-news-agent repository, together with proofs settling the frozen
claims about it.

Modelling conventions:
* Python `dict`s become association lists (`List (String × α)`) with Python's
  update-in-place / append-at-end semantics.
* Python `float`s become `ℚ`: the service never performs float arithmetic on
  cached data beyond exact copying, counting and one exact division, so the
  rational model is faithful for every claim below.
* Wall-clock readings (`time.time()`) become explicit `ℚ` arguments.
* Exceptions become `Except PyError`; a raised-and-caught exception inside a
  function becomes an `Option`/branch, a raised-and-propagated one an `.error`.
* Serialized byte strings (json / pickle / gzip payloads) become the symbolic
  `Payload` type: each serializer is injective with its deserializer as left
  inverse, different formats reject each other's bytes (json cannot parse
  pickle opcodes, gzip rejects a missing magic number, and so on), and
  `rawBytes` stands for arbitrary bytes no deserializer accepts.
-/

set_option maxHeartbeats 1000000
set_option maxRecDepth 20000

namespace EmbedCache

/-! ## Association lists (Python `dict`) -/

/-- Python `d.get(k)` / `d[k]` membership: first binding for the key. -/
def lookupA {α : Type} (l : List (String × α)) (k : String) : Option α :=
  match l with
  | [] => none
  | (k', v) :: rest => if k' = k then some v else lookupA rest k

/-- Python `d[k] = v`: replace in place when present, append when absent. -/
def insertA {α : Type} (l : List (String × α)) (k : String) (v : α) : List (String × α) :=
  match l with
  | [] => [(k, v)]
  | (k', v') :: rest => if k' = k then (k', v) :: rest else (k', v') :: insertA rest k v

/-- Update the value stored at `k` (if present) without moving it. -/
def mapValA {α : Type} (l : List (String × α)) (k : String) (f : α → α) :
    List (String × α) :=
  l.map fun kv => if kv.1 = k then (kv.1, f kv.2) else kv

/-! ## Enumerations and configuration (`CacheStrategy`, `CompressionType`, `CacheConfig`) -/

/-- `CacheStrategy` enum from the source. -/
inductive CacheStrategy where
  | MEMORY_ONLY
  | REDIS_ONLY
  | HYBRID
  | PERSISTENT
deriving DecidableEq

/-- `CompressionType` enum from the source. -/
inductive CompressionType where
  | NONE
  | GZIP
  | PICKLE
  | GZIP_PICKLE
deriving DecidableEq

/-- The `.value` string of each `CompressionType` member. -/
def CompressionType.value : CompressionType → String
  | .NONE => "none"
  | .GZIP => "gzip"
  | .PICKLE => "pickle"
  | .GZIP_PICKLE => "gzip_pickle"

/-- `CacheConfig` dataclass. The source field `redis_key_prefix` is rendered
here as ` redis_key_pref`. -/
structure CacheConfig where
  model_name : String
  strategy : CacheStrategy
  ttl_seconds : Int
  max_memory_items : Nat
  compression : CompressionType
  redis_key_pref : String
  enable_precompute : Bool := false
  batch_eviction : Bool := true
deriving DecidableEq

/-- `CacheStats` dataclass. -/
structure CacheStats where
  model_name : String
  total_requests : Nat
  cache_hits : Nat
  cache_misses : Nat
  hit_rate : ℚ
  avg_retrieval_time_ms : ℚ
  memory_usage_mb : ℚ
  redis_usage_items : Nat
  eviction_count : Nat
  last_cleanup : ℚ
deriving DecidableEq

/-- `CachedEmbedding` dataclass. Floats are modelled as `ℚ`, Python ints as
`Int`. -/
structure CachedEmbedding where
  text_hash : String
  model_name : String
  embedding_vector : List ℚ
  dimension : Int
  norm : ℚ
  created_at : ℚ
  access_count : Int
  last_accessed : ℚ
  compression_type : String
deriving DecidableEq

/-! ## Serialization model (`_compress_embedding` / `_decompress_embedding`)

`asdict(embedding)` produces a 9-key dict whose values are strings, ints,
floats or a float list; `CachedEmbedding(**d)` re-builds the dataclass and
fails (TypeError) on missing or extra keys or ill-typed values. -/

/-- A JSON/pickle-representable value of the shapes `asdict` actually emits. -/
inductive JValue where
  | jstr (s : String)
  | jint (i : Int)
  | jnum (q : ℚ)
  | jarr (l : List ℚ)
deriving DecidableEq

/-- `dataclasses.asdict`: field-order dict of the nine fields. -/
def asdict (e : CachedEmbedding) : List (String × JValue) :=
  [("text_hash", .jstr e.text_hash),
   ("model_name", .jstr e.model_name),
   ("embedding_vector", .jarr e.embedding_vector),
   ("dimension", .jint e.dimension),
   ("norm", .jnum e.norm),
   ("created_at", .jnum e.created_at),
   ("access_count", .jint e.access_count),
   ("last_accessed", .jnum e.last_accessed),
   ("compression_type", .jstr e.compression_type)]

def getStr (d : List (String × JValue)) (k : String) : Option String :=
  match lookupA d k with
  | some (.jstr s) => some s
  | _ => none

def getInt (d : List (String × JValue)) (k : String) : Option Int :=
  match lookupA d k with
  | some (.jint i) => some i
  | _ => none

def getNum (d : List (String × JValue)) (k : String) : Option ℚ :=
  match lookupA d k with
  | some (.jnum q) => some q
  | _ => none

def getArr (d : List (String × JValue)) (k : String) : Option (List ℚ) :=
  match lookupA d k with
  | some (.jarr l) => some l
  | _ => none

/-- `CachedEmbedding(**embedding_dict)`: every field must be present and
well-typed and no extra key may appear, otherwise Python raises TypeError. -/
def fromDict (d : List (String × JValue)) : Option CachedEmbedding :=
  if d.length = 9 then
    (getStr d "text_hash").bind fun th =>
    (getStr d "model_name").bind fun mn =>
    (getArr d "embedding_vector").bind fun ev =>
    (getInt d "dimension").bind fun dim =>
    (getNum d "norm").bind fun nr =>
    (getNum d "created_at").bind fun ca =>
    (getInt d "access_count").bind fun ac =>
    (getNum d "last_accessed").bind fun la =>
    (getStr d "compression_type").bind fun ct =>
    some ⟨th, mn, ev, dim, nr, ca, ac, la, ct⟩
  else none

/-- Symbolic serialized bytes. `jsonBytes d` is `json.dumps(d).encode()`,
`pickleBytes d` is `pickle.dumps(d)`, `gzBytes p` is `gzip.compress` of the
bytes `p` stands for, and `rawBytes n` is an arbitrary byte string that none
of the three deserializers accepts. Distinct constructors model the fact that
each format rejects the others' framing (json text is not a pickle opcode
stream nor gzip-framed, and conversely). -/
inductive Payload where
  | jsonBytes (d : List (String × JValue))
  | pickleBytes (d : List (String × JValue))
  | gzBytes (p : Payload)
  | rawBytes (n : Nat)
deriving DecidableEq

/-- `_compress_embedding`: serialize `asdict(embedding)` per the mode. The
source's defensive `else` branch is unreachable (the enum has exactly the
four members matched here). -/
def _compress_embedding (embedding : CachedEmbedding) (compression : CompressionType) :
    Payload :=
  match compression with
  | .NONE => .jsonBytes (asdict embedding)
  | .GZIP => .gzBytes (.jsonBytes (asdict embedding))
  | .PICKLE => .pickleBytes (asdict embedding)
  | .GZIP_PICKLE => .gzBytes (.pickleBytes (asdict embedding))

/-- `_decompress_embedding`: deserialize per the mode and rebuild the
dataclass; any parse or rebuild failure raises (modelled as `none`), which the
caller catches. -/
def _decompress_embedding (data : Payload) (compression : CompressionType) :
    Option CachedEmbedding :=
  match compression with
  | .NONE =>
      match data with
      | .jsonBytes d => fromDict d
      | _ => none
  | .GZIP =>
      match data with
      | .gzBytes (.jsonBytes d) => fromDict d
      | _ => none
  | .PICKLE =>
      match data with
      | .pickleBytes d => fromDict d
      | _ => none
  | .GZIP_PICKLE =>
      match data with
      | .gzBytes (.pickleBytes d) => fromDict d
      | _ => none

/-- Rebuilding from `asdict` is the identity (flat dataclass). -/
theorem fromDict_asdict (e : CachedEmbedding) : fromDict (asdict e) = some e := by
  cases e
  rfl

/-! ## SHA-256 (`hashlib.sha256(...).hexdigest()`)

A byte-level model of FIPS 180-4 SHA-256 over `Nat` words reduced mod `2^32`.
The round constants are computed from their defining formulas (fractional
parts of the square roots of the first 8 primes and of the cube roots of the
first 64 primes) rather than transcribed. -/

/-- Truncate to a 32-bit word. -/
def w32 (n : Nat) : Nat := n % 4294967296

/-- Right-rotate a 32-bit word. -/
def rotr (x n : Nat) : Nat := w32 ((x >>> n) ||| (x <<< (32 - n)))

def ch (x y z : Nat) : Nat := (x &&& y) ^^^ ((x ^^^ 4294967295) &&& z)

def maj (x y z : Nat) : Nat := (x &&& y) ^^^ (x &&& z) ^^^ (y &&& z)

def bigSigma0 (x : Nat) : Nat := rotr x 2 ^^^ rotr x 13 ^^^ rotr x 22

def bigSigma1 (x : Nat) : Nat := rotr x 6 ^^^ rotr x 11 ^^^ rotr x 25

def smallSigma0 (x : Nat) : Nat := rotr x 7 ^^^ rotr x 18 ^^^ (x >>> 3)

def smallSigma1 (x : Nat) : Nat := rotr x 17 ^^^ rotr x 19 ^^^ (x >>> 10)

/-- The first 64 primes, for the SHA-256 constant derivations. -/
def first64Primes : List Nat :=
  [2, 3, 5, 7, 11, 13, 17, 19, 23, 29, 31, 37, 41, 43, 47, 53,
   59, 61, 67, 71, 73, 79, 83, 89, 97, 101, 103, 107, 109, 113, 127, 131,
   137, 139, 149, 151, 157, 163, 167, 173, 179, 181, 191, 193, 197, 199, 211, 223,
   227, 229, 233, 239, 241, 251, 257, 263, 269, 271, 277, 281, 283, 293, 307, 311]

/-- Integer cube root by bisection (enough fuel for 128-bit inputs). -/
def icbrtAux (n : Nat) : Nat → Nat → Nat → Nat
  | 0, lo, _ => lo
  | fuel + 1, lo, hi =>
      if hi ≤ lo + 1 then lo
      else
        let mid := (lo + hi) / 2
        if mid ^ 3 ≤ n then icbrtAux n fuel mid hi else icbrtAux n fuel lo mid

def icbrt (n : Nat) : Nat := icbrtAux n 200 0 (n + 1)

/-- Integer square root by bisection (enough fuel for 128-bit inputs). -/
def isqrtAux (n : Nat) : Nat → Nat → Nat → Nat
  | 0, lo, _ => lo
  | fuel + 1, lo, hi =>
      if hi ≤ lo + 1 then lo
      else
        let mid := (lo + hi) / 2
        if mid * mid ≤ n then isqrtAux n fuel mid hi else isqrtAux n fuel lo mid

def isqrt (n : Nat) : Nat := isqrtAux n 200 0 (n + 1)

/-- SHA-256 initial hash value: the first 32 bits of the fractional parts of
the square roots of the first 8 primes. -/
def sha256H0 : List Nat :=
  (first64Primes.take 8).map fun p => w32 (isqrt (p * 2 ^ 64))

/-- SHA-256 round constants: the first 32 bits of the fractional parts of the
cube roots of the first 64 primes. -/
def sha256K : List Nat :=
  first64Primes.map fun p => w32 (icbrt (p * 2 ^ 96))

/-- Big-endian length field of the padding: 8 bytes holding the bit length. -/
def lenBytes (len : Nat) : List Nat :=
  (List.range 8).map fun i => (8 * len) >>> (56 - 8 * i) % 256

/-- Merkle–Damgård padding: `0x80`, zeros to 56 mod 64, 8-byte bit length. -/
def padBytes (msg : List Nat) : List Nat :=
  msg ++ [128] ++ List.replicate ((119 - msg.length % 64) % 64) 0 ++ lenBytes msg.length

/-- Big-endian 32-bit words from bytes. -/
def bytesToWords : List Nat → List Nat
  | b0 :: b1 :: b2 :: b3 :: rest =>
      (((b0 * 256 + b1) * 256 + b2) * 256 + b3) :: bytesToWords rest
  | _ => []

/-- Split a word list into 16-word blocks (padded input is always a multiple
of 16 words). -/
def chunk16 : List Nat → List (List Nat)
  | w0 :: w1 :: w2 :: w3 :: w4 :: w5 :: w6 :: w7 ::
    w8 :: w9 :: w10 :: w11 :: w12 :: w13 :: w14 :: w15 :: rest =>
      [w0, w1, w2, w3, w4, w5, w6, w7, w8, w9, w10, w11, w12, w13, w14, w15] ::
        chunk16 rest
  | _ => []

/-- Extend the message schedule by one word. -/
def scheduleStep (ws : List Nat) : List Nat :=
  let n := ws.length
  ws ++ [w32 (smallSigma1 (ws.getD (n - 2) 0) + ws.getD (n - 7) 0 +
              smallSigma0 (ws.getD (n - 15) 0) + ws.getD (n - 16) 0)]

/-- The 64-word message schedule of one block. -/
def schedule (block : List Nat) : List Nat :=
  (List.range 48).foldl (fun ws _ => scheduleStep ws) block

/-- The eight working registers. -/
structure Regs where
  a : Nat
  b : Nat
  c : Nat
  d : Nat
  e : Nat
  f : Nat
  g : Nat
  h : Nat

/-- One SHA-256 round. -/
def sha256Round (r : Regs) (kw : Nat × Nat) : Regs :=
  let t1 := w32 (r.h + bigSigma1 r.e + ch r.e r.f r.g + kw.1 + kw.2)
  let t2 := w32 (bigSigma0 r.a + maj r.a r.b r.c)
  { a := w32 (t1 + t2), b := r.a, c := r.b, d := r.c,
    e := w32 (r.d + t1), f := r.e, g := r.f, h := r.g }

/-- Compress one 16-word block into the chaining state. -/
def processBlock (state : List Nat) (block : List Nat) : List Nat :=
  let ws := schedule block
  let init : Regs :=
    { a := state.getD 0 0, b := state.getD 1 0, c := state.getD 2 0, d := state.getD 3 0,
      e := state.getD 4 0, f := state.getD 5 0, g := state.getD 6 0, h := state.getD 7 0 }
  let r := (sha256K.zip ws).foldl sha256Round init
  [w32 (state.getD 0 0 + r.a), w32 (state.getD 1 0 + r.b),
   w32 (state.getD 2 0 + r.c), w32 (state.getD 3 0 + r.d),
   w32 (state.getD 4 0 + r.e), w32 (state.getD 5 0 + r.f),
   w32 (state.getD 6 0 + r.g), w32 (state.getD 7 0 + r.h)]

/-- SHA-256 digest of a byte string, as eight 32-bit words. -/
def sha256Words (msg : List Nat) : List Nat :=
  (chunk16 (bytesToWords (padBytes msg))).foldl processBlock sha256H0

/-- Lower-case hex digit, as Python's `hexdigest` emits. -/
def hexDigit (n : Nat) : Char :=
  if n < 10 then Char.ofNat (48 + n) else Char.ofNat (87 + n)

/-- Eight hex digits of a 32-bit word, most significant first. -/
def toHex8 (x : Nat) : List Char :=
  (List.range 8).map fun i => hexDigit ((x >>> (28 - 4 * i)) % 16)

/-- `hashlib.sha256(bytes).hexdigest()`. -/
def sha256hex (msg : List Nat) : String :=
  String.mk ((sha256Words msg).map toHex8).flatten

/-- UTF-8 encoding of one code point. -/
def utf8Bytes (c : Nat) : List Nat :=
  if c < 128 then [c]
  else if c < 2048 then [192 + c / 64, 128 + c % 64]
  else if c < 65536 then [224 + c / 4096, 128 + c / 64 % 64, 128 + c % 64]
  else [240 + c / 262144, 128 + c / 4096 % 64, 128 + c / 64 % 64, 128 + c % 64]

/-- `str.encode("utf-8")` as a byte list. -/
def strBytes (s : String) : List Nat :=
  (s.data.map fun ch => utf8Bytes ch.toNat).flatten

/-- `_generate_text_hash`: SHA-256 hex digest of the UTF-8 bytes of
`"{model_name}:{text}"`. -/
def _generate_text_hash (text model_name : String) : String :=
  sha256hex (strBytes (model_name ++ ":" ++ text))

/-! ## Runtime values and the two storage tiers -/

/-- The exceptions the orchestrator can propagate. -/
inductive PyError where
  | keyError (k : String)
  | valueError (msg : String)
deriving DecidableEq

/-- An input item; the orchestrator reads only `.text`, `id` tags the item. -/
structure TextItem where
  id : Int
  text : String
deriving DecidableEq

/-- One embedding-computation result dict handed to `store_embeddings`:
`result["vector"]` plus `result.get("norm", 0.0)`. -/
structure EmbeddingResult where
  vector : List ℚ
  norm : Option ℚ
deriving DecidableEq

/-- One `TTLCache` slot: the stored object plus its absolute expiry instant. -/
structure MemEntry where
  expires : ℚ
  value : CachedEmbedding
deriving DecidableEq

/-- `cachetools.TTLCache` for one model: the per-cache ttl fixed at
construction and the entries. Modelled from the library's read semantics: a
read at time `t` sees an entry iff `t` is strictly before insertion time plus
ttl; `maxsize` capacity eviction is not modelled (no claim exercises it). -/
structure MemCache where
  ttl : Int
  entries : List (String × MemEntry)
deriving DecidableEq

/-- `TTLCache.get`: expired entries are invisible. -/
def ttlGet (c : MemCache) (k : String) (now : ℚ) : Option CachedEmbedding :=
  match lookupA c.entries k with
  | none => none
  | some e => if now < e.expires then some e.value else none

/-- `TTLCache.__setitem__`: store with expiry `now + ttl`. -/
def ttlSet (c : MemCache) (k : String) (v : CachedEmbedding) (now : ℚ) : MemCache :=
  { c with entries := insertA c.entries k ⟨now + c.ttl, v⟩ }

/-- One remote entry: payload bytes plus server-side expiry from `setex`. -/
structure RedisEntry where
  expires : ℚ
  payload : Payload
deriving DecidableEq

/-- The remote tier's keyspace. -/
abbrev RedisStore := List (String × RedisEntry)

/-- `redis.get`: expired keys are gone. -/
def redisGet (r : RedisStore) (k : String) (now : ℚ) : Option Payload :=
  match lookupA r k with
  | none => none
  | some e => if now < e.expires then some e.payload else none

/-- `redis.setex`: store bytes with a ttl. -/
def redisSetex (r : RedisStore) (k : String) (ttl : Int) (p : Payload) (now : ℚ) :
    RedisStore :=
  insertA r k ⟨now + ttl, p⟩

/-! ## Service state and initialization -/

/-- The mutable attributes of `EmbeddingCacheService`. -/
structure ServiceState where
  cache_configs : List (String × CacheConfig)
  memory_caches : List (String × MemCache)
  redis_client : Option RedisStore
  cache_stats : List (String × CacheStats)
  request_times : List (String × List ℚ)
deriving DecidableEq

def mockConfig : CacheConfig :=
  { model_name := "mock", strategy := .MEMORY_ONLY, ttl_seconds := 3600,
    max_memory_items := 10000, compression := .NONE, redis_key_pref := "embed:mock:" }

def kobertConfig : CacheConfig :=
  { model_name := "kobert", strategy := .HYBRID, ttl_seconds := 86400,
    max_memory_items := 5000, compression := .GZIP_PICKLE,
    redis_key_pref := "embed:kobert:", enable_precompute := true }

def robertaConfig : CacheConfig :=
  { model_name := "roberta", strategy := .HYBRID, ttl_seconds := 86400,
    max_memory_items := 5000, compression := .GZIP_PICKLE,
    redis_key_pref := "embed:roberta:", enable_precompute := true }

def onnxKobertConfig : CacheConfig :=
  { model_name := "onnx_kobert", strategy := .PERSISTENT, ttl_seconds := 172800,
    max_memory_items := 8000, compression := .GZIP_PICKLE,
    redis_key_pref := "embed:onnx:kobert:", enable_precompute := true }

def onnxRobertaConfig : CacheConfig :=
  { model_name := "onnx_roberta", strategy := .PERSISTENT, ttl_seconds := 172800,
    max_memory_items := 8000, compression := .GZIP_PICKLE,
    redis_key_pref := "embed:onnx:roberta:", enable_precompute := true }

/-- `self.cache_configs` as built in `__init__`. -/
def initialConfigs : List (String × CacheConfig) :=
  [("mock", mockConfig), ("kobert", kobertConfig), ("roberta", robertaConfig),
   ("onnx_kobert", onnxKobertConfig), ("onnx_roberta", onnxRobertaConfig)]

/-- Zeroed `CacheStats` as `_initialize_memory_caches` builds them. -/
def initialStats (model_name : String) (t0 : ℚ) : CacheStats :=
  { model_name, total_requests := 0, cache_hits := 0, cache_misses := 0,
    hit_rate := 0, avg_retrieval_time_ms := 0, memory_usage_mb := 0,
    redis_usage_items := 0, eviction_count := 0, last_cleanup := t0 }

/-- `_initialize_memory_caches`: a `TTLCache` only for MEMORY_ONLY / HYBRID
strategies, zeroed stats and an empty timing list for every model. -/
def _initialize_memory_caches (configs : List (String × CacheConfig)) (t0 : ℚ) :
    List (String × MemCache) × List (String × CacheStats) × List (String × List ℚ) :=
  (configs.filterMap fun mc =>
     if mc.2.strategy = .MEMORY_ONLY ∨ mc.2.strategy = .HYBRID then
       some (mc.1, ⟨mc.2.ttl_seconds, []⟩)
     else none,
   configs.map fun mc => (mc.1, initialStats mc.1 t0),
   configs.map fun mc => (mc.1, ([] : List ℚ)))

/-- `_initialize_redis`: if the ping succeeds the client wraps the remote
keyspace `r0`; otherwise the client is dropped and every remote-dependent
strategy is rewritten in place to MEMORY_ONLY. -/
def _initialize_redis (redisAvailable : Bool) (r0 : RedisStore)
    (configs : List (String × CacheConfig)) :
    Option RedisStore × List (String × CacheConfig) :=
  if redisAvailable then (some r0, configs)
  else
    (none,
     configs.map fun mc =>
       (mc.1,
        if mc.2.strategy = .REDIS_ONLY ∨ mc.2.strategy = .HYBRID ∨
            mc.2.strategy = .PERSISTENT
        then { mc.2 with strategy := .MEMORY_ONLY }
        else mc.2))

/-- `__init__` followed by the startup reachability probe: memory caches are
built from the original strategies before any downgrade happens. -/
def initService (redisAvailable : Bool) (r0 : RedisStore) (t0 : ℚ) : ServiceState :=
  let m := _initialize_memory_caches initialConfigs t0
  let r := _initialize_redis redisAvailable r0 initialConfigs
  { cache_configs := r.2, memory_caches := m.1, redis_client := r.1,
    cache_stats := m.2.1, request_times := m.2.2 }

/-! ## Orchestrator operations -/

/-- `self.cache_configs.get(model_name, self.cache_configs["mock"])`: Python
evaluates the default eagerly, so a registry without "mock" raises KeyError
even for known names. -/
def getConfigOrMock (s : ServiceState) (model_name : String) : Except PyError CacheConfig :=
  match lookupA s.cache_configs "mock" with
  | none => .error (.keyError "mock")
  | some dflt => .ok ((lookupA s.cache_configs model_name).getD dflt)

/-- `_get_from_cache`: memory tier first (when the strategy uses it and the
model has a cache), then the remote tier (when the strategy uses it and the
client is up); a remote payload is decoded and, under HYBRID, promoted into
the memory cache; any remote/decode exception is caught and ends in a miss. -/
def _get_from_cache (s : ServiceState) (text_hash model_name : String)
    (config : CacheConfig) (now : ℚ) : Option CachedEmbedding × ServiceState :=
  let memHit : Option CachedEmbedding :=
    if config.strategy = .MEMORY_ONLY ∨ config.strategy = .HYBRID then
      match lookupA s.memory_caches model_name with
      | some mc => ttlGet mc text_hash now
      | none => none
    else none
  match memHit with
  | some cached => (some cached, s)
  | none =>
      if config.strategy = .REDIS_ONLY ∨ config.strategy = .HYBRID ∨
          config.strategy = .PERSISTENT then
        match s.redis_client with
        | none => (none, s)
        | some r =>
            match redisGet r (config.redis_key_pref ++ text_hash) now with
            | none => (none, s)
            | some payload =>
                match _decompress_embedding payload config.compression with
                | none => (none, s)
                | some cached =>
                    if config.strategy = .HYBRID then
                      match lookupA s.memory_caches model_name with
                      | some mc =>
                          (some cached,
                           { s with memory_caches := insertA s.memory_caches model_name (ttlSet mc text_hash cached now) })
                      | none => (some cached, s)
                    else (some cached, s)
      else (none, s)

/-- `_store_in_cache`: write to the memory tier (when applicable) and to the
remote tier (when applicable and up). -/
def _store_in_cache (s : ServiceState) (text_hash : String)
    (embedding : CachedEmbedding) (model_name : String) (config : CacheConfig)
    (now : ℚ) : ServiceState :=
  let s1 :=
    if config.strategy = .MEMORY_ONLY ∨ config.strategy = .HYBRID then
      match lookupA s.memory_caches model_name with
      | some mc =>
          { s with memory_caches := insertA s.memory_caches model_name (ttlSet mc text_hash embedding now) }
      | none => s
    else s
  if config.strategy = .REDIS_ONLY ∨ config.strategy = .HYBRID ∨
      config.strategy = .PERSISTENT then
    match s1.redis_client with
    | some r =>
        { s1 with redis_client := some (redisSetex r (config.redis_key_pref ++ text_hash) config.ttl_seconds (_compress_embedding embedding config.compression) now) }
    | none => s1
  else s1

/-- In-place `access_count += 1; last_accessed = time.time()` on a hit. -/
def bumpAccess (e : CachedEmbedding) (now : ℚ) : CachedEmbedding :=
  { e with access_count := e.access_count + 1, last_accessed := now }

/-- The hit object is the very object held by the model's memory cache (it was
either read from it or just promoted into it), so the in-place bump changes
the stored copy too, without moving its expiry. -/
def bumpShared (s : ServiceState) (model_name text_hash : String) (now : ℚ) :
    ServiceState :=
  { s with memory_caches := mapValA s.memory_caches model_name fun mc => { mc with entries := mapValA mc.entries text_hash fun en => { en with value := bumpAccess en.value now } } }

/-- `self.cache_stats[model_name].cache_hits += 1` and the per-item
`total_requests += 1`; KeyError when the model has no stats entry. -/
def statsBumpHit (s : ServiceState) (model_name : String) : Option ServiceState :=
  match lookupA s.cache_stats model_name with
  | none => none
  | some _ =>
      some { s with cache_stats := mapValA s.cache_stats model_name fun st => { st with cache_hits := st.cache_hits + 1, total_requests := st.total_requests + 1 } }

/-- `self.cache_stats[model_name].cache_misses += 1` and the per-item
`total_requests += 1`; KeyError when the model has no stats entry. -/
def statsBumpMiss (s : ServiceState) (model_name : String) : Option ServiceState :=
  match lookupA s.cache_stats model_name with
  | none => none
  | some _ =>
      some { s with cache_stats := mapValA s.cache_stats model_name fun st => { st with cache_misses := st.cache_misses + 1, total_requests := st.total_requests + 1 } }

/-- The per-item loop of `get_cached_embeddings`. -/
def lookupLoop (config : CacheConfig) (model_name : String) (now : ℚ) :
    List TextItem → ServiceState →
    Except PyError (List CachedEmbedding × List TextItem × ServiceState)
  | [], s => .ok ([], [], s)
  | item :: rest, s =>
      let text_hash := _generate_text_hash item.text model_name
      let r := _get_from_cache s text_hash model_name config now
      match r.1 with
      | some cached =>
          let s1 :=
            if config.strategy = .MEMORY_ONLY ∨ config.strategy = .HYBRID then
              bumpShared r.2 model_name text_hash now
            else r.2
          match statsBumpHit s1 model_name with
          | none => .error (.keyError model_name)
          | some s2 =>
              match lookupLoop config model_name now rest s2 with
              | .error e => .error e
              | .ok (hits, misses, s3) => .ok (bumpAccess cached now :: hits, misses, s3)
      | none =>
          match statsBumpMiss r.2 model_name with
          | none => .error (.keyError model_name)
          | some s2 =>
              match lookupLoop config model_name now rest s2 with
              | .error e => .error e
              | .ok (hits, misses, s3) => .ok (hits, item :: misses, s3)

/-- `get_cached_embeddings`: resolve the config (mock fallback), classify each
item as hit or miss, then record the batch timing sample and refresh
`hit_rate` / `avg_retrieval_time_ms`. `now` is the wall clock during the call
and `rt` the measured batch duration in ms. -/
def get_cached_embeddings (s : ServiceState) (text_items : List TextItem)
    (model_name : String) (now rt : ℚ) :
    Except PyError (List CachedEmbedding × List TextItem × ServiceState) :=
  match getConfigOrMock s model_name with
  | .error e => .error e
  | .ok config =>
      match lookupLoop config model_name now text_items s with
      | .error e => .error e
      | .ok (hits, misses, s1) =>
          match lookupA s1.request_times model_name with
          | none => .error (.keyError model_name)
          | some times =>
              let times' := times ++ [rt]
              let s2 := { s1 with request_times := insertA s1.request_times model_name times' }
              match lookupA s2.cache_stats model_name with
              | none => .error (.keyError model_name)
              | some st =>
                  let hr : ℚ :=
                    if st.total_requests > 0 then
                      (st.cache_hits : ℚ) / (st.total_requests : ℚ)
                    else 0
                  let avg : ℚ :=
                    ((times'.reverse.take 100).foldl (· + ·) 0) /
                      ((min 100 times'.length : Nat) : ℚ)
                  let s3 := { s2 with cache_stats := mapValA s2.cache_stats model_name fun stOld => { stOld with hit_rate := hr, avg_retrieval_time_ms := avg } }
                  .ok (hits, misses, s3)

/-- `store_embeddings`: build one `CachedEmbedding` per (item, result) pair
and write it to the tiers the (mock-defaulted) config specifies. -/
def store_embeddings (s : ServiceState) (text_items : List TextItem)
    (embedding_results : List EmbeddingResult) (model_name : String) (now : ℚ) :
    Except PyError ServiceState :=
  match getConfigOrMock s model_name with
  | .error e => .error e
  | .ok config =>
      .ok <| (text_items.zip embedding_results).foldl
        (fun acc ir =>
          let text_hash := _generate_text_hash ir.1.text model_name
          let cached : CachedEmbedding :=
            { text_hash, model_name,
              embedding_vector := ir.2.vector,
              dimension := (ir.2.vector.length : Int),
              norm := ir.2.norm.getD 0,
              created_at := now, access_count := 1, last_accessed := now,
              compression_type := config.compression.value }
          _store_in_cache acc text_hash cached model_name config now) s

/-- `pattern in key` on char lists. -/
def listContains (l pat : List Char) : Bool :=
  (List.range (l.length + 1)).any fun i => pat.isPrefixOf (l.drop i)

/-- Python `pat in s` substring test. -/
def strContains (s pat : String) : Bool :=
  listContains s.data pat.data

/-- Whether a remote key matches the invalidation glob
(key prefix then `*`, or key prefix, `*`, pattern, `*`). -/
def globMatch (key keyPref : String) (text_pattern : Option String) : Bool :=
  match text_pattern with
  | none => keyPref.data.isPrefixOf key.data
  | some pat =>
      keyPref.data.isPrefixOf key.data &&
        listContains (key.data.drop keyPref.data.length) pat.data

/-- Clear one model's memory tier: with a pattern, drop the keys containing
it; without, drop everything (the cache object and its ttl remain). -/
def clearModelMem (mc : MemCache) (text_pattern : Option String) : MemCache :=
  match text_pattern with
  | some pat => { mc with entries := mc.entries.filter fun kv => !(strContains kv.1 pat) }
  | none => { mc with entries := [] }

/-- Clear one model in both tiers. The `none` config branch is unreachable:
both callers only pass configured models. -/
def clearOneModel (s : ServiceState) (m : String) (text_pattern : Option String) :
    ServiceState :=
  match lookupA s.cache_configs m with
  | none => s
  | some config =>
      let s1 :=
        match lookupA s.memory_caches m with
        | some mc =>
            { s with memory_caches := insertA s.memory_caches m (clearModelMem mc text_pattern) }
        | none => s
      match s1.redis_client with
      | some r =>
          { s1 with redis_client := some (r.filter fun kv => !(globMatch kv.1 config.redis_key_pref text_pattern)) }
      | none => s1

/-- `invalidate_cache`: the guard is `if model_name and model_name not in
self.cache_configs`, so only a truthy (nonempty) unknown name raises
ValueError; `[model_name] if model_name else list(...)` then clears the
named model when the name is truthy, and every configured model when the
name is omitted or the empty string. -/
def invalidate_cache (s : ServiceState) (model_name text_pattern : Option String) :
    Except PyError ServiceState :=
  match model_name with
  | some m =>
      if m = "" then
        .ok ((s.cache_configs.map Prod.fst).foldl
          (fun acc mm => clearOneModel acc mm text_pattern) s)
      else if (lookupA s.cache_configs m).isNone then .error (.valueError m)
      else .ok (clearOneModel s m text_pattern)
  | none =>
      .ok ((s.cache_configs.map Prod.fst).foldl
        (fun acc m => clearOneModel acc m text_pattern) s)

/-! ## Association-list lemmas -/

theorem lookupA_insertA_self {α : Type} (l : List (String × α)) (k : String) (v : α) :
    lookupA (insertA l k v) k = some v := by
  induction l with
  | nil => simp [insertA, lookupA]
  | cons kv rest ih =>
      obtain ⟨k', v'⟩ := kv
      by_cases h : k' = k <;> simp [insertA, lookupA, h, ih]

theorem lookupA_insertA_ne {α : Type} (l : List (String × α)) (k k' : String) (v : α)
    (h : k' ≠ k) : lookupA (insertA l k v) k' = lookupA l k' := by
  have hne : ¬ k = k' := fun e => h e.symm
  induction l with
  | nil => simp [insertA, lookupA, hne]
  | cons kv rest ih =>
      obtain ⟨k0, v0⟩ := kv
      by_cases h0 : k0 = k
      · subst h0
        simp [insertA, lookupA, hne]
      · simp [insertA, lookupA, h0, ih]

theorem mapValA_cons {α : Type} (k0 : String) (v0 : α) (rest : List (String × α))
    (k : String) (f : α → α) :
    mapValA ((k0, v0) :: rest) k f =
      (if k0 = k then (k0, f v0) else (k0, v0)) :: mapValA rest k f := rfl

theorem lookupA_mapValA_self {α : Type} (l : List (String × α)) (k : String) (f : α → α) :
    lookupA (mapValA l k f) k = (lookupA l k).map f := by
  induction l with
  | nil => simp [mapValA, lookupA]
  | cons kv rest ih =>
      obtain ⟨k0, v0⟩ := kv
      by_cases h0 : k0 = k
      · rw [mapValA_cons, if_pos h0]
        subst h0
        simp [lookupA, ih]
      · rw [mapValA_cons, if_neg h0]
        simp [lookupA, h0, ih]

theorem lookupA_mapValA_ne {α : Type} (l : List (String × α)) (k k' : String) (f : α → α)
    (h : k' ≠ k) : lookupA (mapValA l k f) k' = lookupA l k' := by
  have hne : ¬ k = k' := fun e => h e.symm
  induction l with
  | nil => simp [mapValA, lookupA]
  | cons kv rest ih =>
      obtain ⟨k0, v0⟩ := kv
      by_cases h0 : k0 = k
      · rw [mapValA_cons, if_pos h0]
        subst h0
        simp [lookupA, hne, ih]
      · rw [mapValA_cons, if_neg h0]
        simp [lookupA, ih]

theorem map_fst_mapValA {α : Type} (l : List (String × α)) (k : String) (f : α → α) :
    (mapValA l k f).map Prod.fst = l.map Prod.fst := by
  induction l with
  | nil => simp [mapValA]
  | cons kv rest ih =>
      obtain ⟨k0, v0⟩ := kv
      by_cases h0 : k0 = k
      · rw [mapValA_cons, if_pos h0]
        simp [ih]
      · rw [mapValA_cons, if_neg h0]
        simp [ih]

theorem map_fst_insertA_of_mem {α : Type} (l : List (String × α)) (k : String) (v : α)
    (h : (lookupA l k).isSome) : (insertA l k v).map Prod.fst = l.map Prod.fst := by
  induction l with
  | nil => simp [lookupA] at h
  | cons kv rest ih =>
      obtain ⟨k0, v0⟩ := kv
      by_cases h0 : k0 = k
      · simp [insertA, h0]
      · simp [lookupA, h0] at h
        simp [insertA, h0, ih h]

theorem lookupA_isSome_iff_mem_fst {α : Type} (l : List (String × α)) (k : String) :
    (lookupA l k).isSome ↔ k ∈ l.map Prod.fst := by
  induction l with
  | nil => simp [lookupA]
  | cons kv rest ih =>
      obtain ⟨k0, v0⟩ := kv
      by_cases h0 : k0 = k <;> simp [lookupA, h0, ih] <;> tauto

theorem lookupA_filter_none {α : Type} (l : List (String × α)) (p : String × α → Bool)
    (k : String) (h : lookupA l k = none) : lookupA (l.filter p) k = none := by
  induction l with
  | nil => simp [lookupA]
  | cons kv rest ih =>
      obtain ⟨k0, v0⟩ := kv
      by_cases h0 : k0 = k
      · simp [lookupA, h0] at h
      · simp [lookupA, h0] at h
        by_cases hp : p (k0, v0) <;> simp [List.filter, hp, lookupA, h0, ih h]

/-! ## The pure read view of `_get_from_cache`

`probeCache` is the value component of `_get_from_cache`: "this (hash, model)
pair is stored in a tier the strategy consults, unexpired, and decodable".
The bridge lemma `get_from_cache_fst` ties it to the operation; the lemmas
after it show which state changes leave the hit/miss classification alone. -/

/-- The memory-tier read alone. -/
def memProbe (mems : List (String × MemCache)) (m text_hash : String) (now : ℚ) :
    Option CachedEmbedding :=
  match lookupA mems m with
  | some mc => ttlGet mc text_hash now
  | none => none

/-- The value `_get_from_cache` returns, as a pure function of the two tiers. -/
def probeCache (mems : List (String × MemCache)) (cli : Option RedisStore)
    (text_hash m : String) (cfg : CacheConfig) (now : ℚ) : Option CachedEmbedding :=
  match (if cfg.strategy = .MEMORY_ONLY ∨ cfg.strategy = .HYBRID then
           memProbe mems m text_hash now
         else none) with
  | some cached => some cached
  | none =>
      if cfg.strategy = .REDIS_ONLY ∨ cfg.strategy = .HYBRID ∨
          cfg.strategy = .PERSISTENT then
        match cli with
        | none => none
        | some r =>
            match redisGet r (cfg.redis_key_pref ++ text_hash) now with
            | none => none
            | some payload => _decompress_embedding payload cfg.compression
      else none

/-- The hit/miss classification a state gives a hash under a config. -/
def hitP (s : ServiceState) (cfg : CacheConfig) (m text_hash : String) (now : ℚ) : Bool :=
  (probeCache s.memory_caches s.redis_client text_hash m cfg now).isSome

/-- `_get_from_cache` returns exactly the probe value. -/
theorem get_from_cache_fst (s : ServiceState) (text_hash m : String)
    (cfg : CacheConfig) (now : ℚ) :
    (_get_from_cache s text_hash m cfg now).1 =
      probeCache s.memory_caches s.redis_client text_hash m cfg now := by
  unfold _get_from_cache probeCache memProbe
  dsimp only
  repeat' split
  all_goals first | rfl | simp_all

/-- The state `_get_from_cache` returns: unchanged, or (on a HYBRID remote
hit) the original with the hit promoted into the model's memory cache. -/
theorem get_from_cache_snd_cases (s : ServiceState) (text_hash m : String)
    (cfg : CacheConfig) (now : ℚ) :
    (_get_from_cache s text_hash m cfg now).2 = s ∨
    ∃ mc cached,
      lookupA s.memory_caches m = some mc ∧
      (_get_from_cache s text_hash m cfg now).2 =
        { s with memory_caches :=
            insertA s.memory_caches m (ttlSet mc text_hash cached now) } := by
  unfold _get_from_cache
  dsimp only
  repeat' split
  all_goals first
    | exact Or.inl rfl
    | exact Or.inr ⟨_, _, by assumption, rfl⟩

/-- Everything except the memory tier is left alone by `_get_from_cache`, and
even the memory tier keeps its key set. -/
theorem get_from_cache_frame (s : ServiceState) (text_hash m : String)
    (cfg : CacheConfig) (now : ℚ) :
    ((_get_from_cache s text_hash m cfg now).2).cache_configs = s.cache_configs ∧
    ((_get_from_cache s text_hash m cfg now).2).redis_client = s.redis_client ∧
    ((_get_from_cache s text_hash m cfg now).2).cache_stats = s.cache_stats ∧
    ((_get_from_cache s text_hash m cfg now).2).request_times = s.request_times ∧
    ((_get_from_cache s text_hash m cfg now).2).memory_caches.map Prod.fst =
      s.memory_caches.map Prod.fst := by
  rcases get_from_cache_snd_cases s text_hash m cfg now with h | ⟨mc, cached, hmc, h⟩
  · rw [h]
    exact ⟨rfl, rfl, rfl, rfl, rfl⟩
  · rw [h]
    refine ⟨rfl, rfl, rfl, rfl, ?_⟩
    exact map_fst_insertA_of_mem _ _ _ (by simp [hmc])

/-- Refined state cases: a promotion happens only on a HYBRID remote hit, and
then the promoted value is exactly the decoded remote payload of the probed
hash, which missed the memory tier. -/
theorem get_from_cache_snd_promote (s : ServiceState) (text_hash m : String)
    (cfg : CacheConfig) (now : ℚ) :
    (_get_from_cache s text_hash m cfg now).2 = s ∨
    ∃ mc cached r payload,
      cfg.strategy = .HYBRID ∧
      lookupA s.memory_caches m = some mc ∧
      memProbe s.memory_caches m text_hash now = none ∧
      s.redis_client = some r ∧
      redisGet r (cfg.redis_key_pref ++ text_hash) now = some payload ∧
      _decompress_embedding payload cfg.compression = some cached ∧
      (_get_from_cache s text_hash m cfg now).2 =
        { s with memory_caches :=
            insertA s.memory_caches m (ttlSet mc text_hash cached now) } := by
  unfold _get_from_cache
  dsimp only
  repeat' split
  all_goals first
    | exact Or.inl rfl
    | (refine Or.inr ⟨_, _, _, _, by assumption, by assumption, ?_, by assumption,
        by assumption, by assumption, rfl⟩
       simp_all [memProbe])

/-- A miss leaves the state untouched. -/
theorem get_from_cache_miss_state (s : ServiceState) (text_hash m : String)
    (cfg : CacheConfig) (now : ℚ)
    (h : (_get_from_cache s text_hash m cfg now).1 = none) :
    (_get_from_cache s text_hash m cfg now).2 = s := by
  revert h
  unfold _get_from_cache
  dsimp only
  repeat' split
  all_goals simp_all

/-! ## Stability of the hit/miss classification across a loop step -/

theorem lookupA_mapValA_isSome {α : Type} (l : List (String × α)) (k k' : String)
    (f : α → α) :
    (lookupA (mapValA l k f) k').isSome = (lookupA l k').isSome := by
  by_cases h : k' = k
  · subst h
    rw [lookupA_mapValA_self]
    cases lookupA l k' <;> rfl
  · rw [lookupA_mapValA_ne _ _ _ _ h]

/-- `hitP` reads only the two tiers. -/
theorem hitP_congr (s t : ServiceState) (cfg : CacheConfig) (m h : String) (now : ℚ)
    (hm : t.memory_caches = s.memory_caches) (hr : t.redis_client = s.redis_client) :
    hitP t cfg m h now = hitP s cfg m h now := by
  unfold hitP
  rw [hm, hr]

/-- A value-only rewrite of one model's cache entries (same expiries) does not
change which reads hit. -/
theorem ttlGet_isSome_mapVal (mc : MemCache) (h0 h' : String) (now : ℚ)
    (f : MemEntry → MemEntry) (hexp : ∀ en, (f en).expires = en.expires) :
    (ttlGet { mc with entries := mapValA mc.entries h0 f } h' now).isSome =
      (ttlGet mc h' now).isSome := by
  by_cases h : h' = h0
  · subst h
    unfold ttlGet
    dsimp only
    rw [lookupA_mapValA_self]
    cases hl : lookupA mc.entries h' with
    | none => rfl
    | some en =>
        by_cases hc : now < en.expires <;> simp [Option.map_some', hexp en, hc]
  · unfold ttlGet
    dsimp only
    rw [lookupA_mapValA_ne _ _ _ _ h]

/-- The in-place access bump never changes which reads hit. -/
theorem hitP_bumpShared (s : ServiceState) (cfg : CacheConfig)
    (m0 h0 m h : String) (now' now : ℚ) :
    hitP (bumpShared s m0 h0 now') cfg m h now = hitP s cfg m h now := by
  unfold hitP probeCache
  have hcli : (bumpShared s m0 h0 now').redis_client = s.redis_client := rfl
  rw [hcli]
  have hmem : (memProbe (bumpShared s m0 h0 now').memory_caches m h now).isSome =
      (memProbe s.memory_caches m h now).isSome := by
    unfold memProbe bumpShared
    dsimp only
    by_cases hm : m = m0
    · subst hm
      rw [lookupA_mapValA_self]
      cases hl : lookupA s.memory_caches m with
      | none => rfl
      | some mc =>
          simp only [Option.map_some]
          exact ttlGet_isSome_mapVal mc h0 h now _ (fun en => rfl)
    · rw [lookupA_mapValA_ne _ _ _ _ hm]
  by_cases hstrat : cfg.strategy = .MEMORY_ONLY ∨ cfg.strategy = .HYBRID
  · rw [if_pos hstrat, if_pos hstrat]
    cases h1 : memProbe (bumpShared s m0 h0 now').memory_caches m h now with
    | some c1 =>
        cases h2 : memProbe s.memory_caches m h now with
        | some c2 => rfl
        | none => rw [h1, h2] at hmem; simp at hmem
    | none =>
        cases h2 : memProbe s.memory_caches m h now with
        | some c2 => rw [h1, h2] at hmem; simp at hmem
        | none => rfl
  · rw [if_neg hstrat, if_neg hstrat]

/-- Promoting the decoded remote hit of `h0` into the memory tier does not
change which hashes hit: `h0` stays a hit (from whichever tier) and other
hashes are untouched. -/
theorem hitP_promote (s : ServiceState) (cfg : CacheConfig) (m h0 h : String)
    (now : ℚ) (mc : MemCache) (cached : CachedEmbedding) (r : RedisStore)
    (payload : Payload)
    (hstrat : cfg.strategy = .HYBRID)
    (hmc : lookupA s.memory_caches m = some mc)
    (hmiss : memProbe s.memory_caches m h0 now = none)
    (hred : s.redis_client = some r)
    (hget : redisGet r (cfg.redis_key_pref ++ h0) now = some payload)
    (hdec : _decompress_embedding payload cfg.compression = some cached) :
    hitP { s with memory_caches :=
             insertA s.memory_caches m (ttlSet mc h0 cached now) } cfg m h now =
      hitP s cfg m h now := by
  by_cases hh : h = h0
  · subst hh
    unfold hitP probeCache
    dsimp only
    rw [if_pos (Or.inr hstrat), if_pos (Or.inr hstrat)]
    rw [hmiss]
    have hself : memProbe (insertA s.memory_caches m (ttlSet mc h cached now)) m h now =
        ttlGet (ttlSet mc h cached now) h now := by
      unfold memProbe
      rw [lookupA_insertA_self]
    rw [hself]
    by_cases hexp : now < now + (mc.ttl : ℚ)
    · have : ttlGet (ttlSet mc h cached now) h now = some cached := by
        unfold ttlGet ttlSet
        dsimp only
        rw [lookupA_insertA_self]
        simp [hexp]
      rw [this]
      simp [hred, hget, hdec, hstrat]
    · have : ttlGet (ttlSet mc h cached now) h now = none := by
        unfold ttlGet ttlSet
        dsimp only
        rw [lookupA_insertA_self]
        simp [hexp]
      rw [this]
  · unfold hitP probeCache
    dsimp only
    have : memProbe (insertA s.memory_caches m (ttlSet mc h0 cached now)) m h now =
        memProbe s.memory_caches m h now := by
      unfold memProbe
      rw [lookupA_insertA_self, hmc]
      unfold ttlGet ttlSet
      dsimp only
      rw [lookupA_insertA_ne _ _ _ _ hh]
    rw [this]

/-- The state handed back by `_get_from_cache` classifies every hash exactly
as the input state did. -/
theorem hitP_after_get (s : ServiceState) (cfg : CacheConfig) (m h0 h : String)
    (now : ℚ) :
    hitP ((_get_from_cache s h0 m cfg now).2) cfg m h now = hitP s cfg m h now := by
  rcases get_from_cache_snd_promote s h0 m cfg now with he | ⟨mc, cached, r, payload,
    hstrat, hmc, hmiss, hred, hget, hdec, he⟩
  · rw [he]
  · rw [he]
    exact hitP_promote s cfg m h0 h now mc cached r payload hstrat hmc hmiss hred hget hdec

/-! ## Stats bookkeeping lemmas -/

theorem statsBumpHit_eq (s : ServiceState) (m : String)
    (h : (lookupA s.cache_stats m).isSome) :
    statsBumpHit s m = some { s with cache_stats := mapValA s.cache_stats m fun st => { st with cache_hits := st.cache_hits + 1, total_requests := st.total_requests + 1 } } := by
  unfold statsBumpHit
  cases hl : lookupA s.cache_stats m with
  | none => rw [hl] at h; simp at h
  | some st => rfl

theorem statsBumpMiss_eq (s : ServiceState) (m : String)
    (h : (lookupA s.cache_stats m).isSome) :
    statsBumpMiss s m = some { s with cache_stats := mapValA s.cache_stats m fun st => { st with cache_misses := st.cache_misses + 1, total_requests := st.total_requests + 1 } } := by
  unfold statsBumpMiss
  cases hl : lookupA s.cache_stats m with
  | none => rw [hl] at h; simp at h
  | some st => rfl

theorem length_filter_partition {α : Type} (p : α → Bool) (l : List α) :
    (l.filter p).length + (l.filter fun a => !(p a)).length = l.length := by
  induction l with
  | nil => rfl
  | cons a rest ih =>
      by_cases h : p a <;> simp [List.filter, h] <;> omega

/-! ## The loop specification

For one batch, processed against initial state `s`: the misses are exactly
the items whose hash misses in `s` (in order), the hits are one per hitting
item, every item bumps `total_requests` once and exactly one of the two
counters, and nothing outside the memory tier's values and the model's
counters changes. -/

theorem lookupLoop_spec (cfg : CacheConfig) (m : String) (now : ℚ) :
    ∀ (items : List TextItem) (s : ServiceState),
      (lookupA s.cache_stats m).isSome →
      ∃ hits s',
        lookupLoop cfg m now items s =
          .ok (hits,
               items.filter (fun it => !(hitP s cfg m (_generate_text_hash it.text m) now)),
               s') ∧
        hits.length =
          (items.filter fun it => hitP s cfg m (_generate_text_hash it.text m) now).length ∧
        s'.cache_configs = s.cache_configs ∧
        s'.redis_client = s.redis_client ∧
        s'.request_times = s.request_times ∧
        s'.memory_caches.map Prod.fst = s.memory_caches.map Prod.fst ∧
        (∀ m', m' ≠ m → lookupA s'.cache_stats m' = lookupA s.cache_stats m') ∧
        (∀ st0, lookupA s.cache_stats m = some st0 →
          lookupA s'.cache_stats m = some
            { st0 with
              cache_hits := st0.cache_hits +
                (items.filter fun it =>
                  hitP s cfg m (_generate_text_hash it.text m) now).length,
              cache_misses := st0.cache_misses +
                (items.filter fun it =>
                  !(hitP s cfg m (_generate_text_hash it.text m) now)).length,
              total_requests := st0.total_requests + items.length }) := by
  intro items
  induction items with
  | nil =>
      intro s hstats
      refine ⟨[], s, rfl, rfl, rfl, rfl, rfl, rfl, fun m' _ => rfl, ?_⟩
      intro st0 h0
      simpa using h0
  | cons item rest ih =>
      intro s hstats
      set h0 := _generate_text_hash item.text m with hh0
      have hfst := get_from_cache_fst s h0 m cfg now
      have hframe := get_from_cache_frame s h0 m cfg now
      obtain ⟨hfc, hfr, hfs, hft, hfm⟩ := hframe
      cases hr1 : (_get_from_cache s h0 m cfg now).1 with
      | some cached =>
          have hhit : hitP s cfg m h0 now = true := by
            unfold hitP
            rw [← hfst, hr1]
            rfl
          -- the state after the in-place bump
          set s1 := (if cfg.strategy = .MEMORY_ONLY ∨ cfg.strategy = .HYBRID then
              bumpShared (_get_from_cache s h0 m cfg now).2 m h0 now
            else (_get_from_cache s h0 m cfg now).2) with hs1
          have hs1stats : s1.cache_stats = s.cache_stats := by
            rw [hs1]
            split <;> simp [bumpShared, hfs]
          have hs1mem : s1.memory_caches.map Prod.fst = s.memory_caches.map Prod.fst := by
            rw [hs1]
            split
            · simp [bumpShared, map_fst_mapValA, hfm]
            · exact hfm
          have hs1red : s1.redis_client = s.redis_client := by
            rw [hs1]
            split <;> simp [bumpShared, hfr]
          have hs1cfg : s1.cache_configs = s.cache_configs := by
            rw [hs1]
            split <;> simp [bumpShared, hfc]
          have hs1times : s1.request_times = s.request_times := by
            rw [hs1]
            split <;> simp [bumpShared, hft]
          have hbump := statsBumpHit_eq s1 m (by rw [hs1stats]; exact hstats)
          set s2 : ServiceState := { s1 with cache_stats := mapValA s1.cache_stats m fun st => { st with cache_hits := st.cache_hits + 1, total_requests := st.total_requests + 1 } } with hs2
          have hs2stats : (lookupA s2.cache_stats m).isSome := by
            rw [hs2]
            dsimp only
            rw [lookupA_mapValA_isSome, hs1stats]
            exact hstats
          -- every hash classifies in s2 as in s
          have hstable : ∀ ht : String, hitP s2 cfg m ht now = hitP s cfg m ht now := by
            intro ht
            have e1 : hitP s2 cfg m ht now = hitP s1 cfg m ht now :=
              hitP_congr _ _ _ _ _ _ rfl rfl
            have e2 : hitP s1 cfg m ht now =
                hitP ((_get_from_cache s h0 m cfg now).2) cfg m ht now := by
              rw [hs1]
              split
              · exact hitP_bumpShared _ _ _ _ _ _ _ _
              · rfl
            rw [e1, e2, hitP_after_get]
          obtain ⟨hits', s'', hloop, hlen, hc1, hc2, hc3, hc4, hc5, hc6⟩ := ih s2 hs2stats
          refine ⟨bumpAccess cached now :: hits', s'', ?_, ?_, ?_, ?_, ?_, ?_, ?_, ?_⟩
          · show lookupLoop cfg m now (item :: rest) s = _
            rw [lookupLoop]
            rw [← hh0, hr1]
            dsimp only
            have hbump2 : statsBumpHit s1 m = some s2 := by rw [hbump, hs2]
            rw [← hs1, hbump2]
            dsimp only
            rw [hloop]
            have hfilt_miss :
                (rest.filter fun it => !(hitP s2 cfg m (_generate_text_hash it.text m) now)) =
                (rest.filter fun it => !(hitP s cfg m (_generate_text_hash it.text m) now)) := by
              apply List.filter_congr
              intro it _
              rw [hstable]
            rw [hfilt_miss]
            have : (List.filter (fun it => !(hitP s cfg m (_generate_text_hash it.text m) now))
                (item :: rest)) =
                rest.filter fun it => !(hitP s cfg m (_generate_text_hash it.text m) now) := by
              simp [List.filter, ← hh0, hhit]
            rw [this]
          · have hfilt_hit :
                (rest.filter fun it => hitP s2 cfg m (_generate_text_hash it.text m) now) =
                (rest.filter fun it => hitP s cfg m (_generate_text_hash it.text m) now) := by
              apply List.filter_congr
              intro it _
              rw [hstable]
            have : (List.filter (fun it => hitP s cfg m (_generate_text_hash it.text m) now)
                (item :: rest)) =
                item :: (rest.filter fun it => hitP s cfg m (_generate_text_hash it.text m) now) := by
              simp [List.filter, ← hh0, hhit]
            rw [this]
            simp only [List.length_cons]
            rw [hlen, hfilt_hit]
          · rw [hc1, hs2]
            exact hs1cfg
          · rw [hc2, hs2]
            exact hs1red
          · rw [hc3, hs2]
            exact hs1times
          · rw [hc4, hs2]
            exact hs1mem
          · intro m' hm'
            rw [hc5 m' hm', hs2]
            dsimp only
            rw [lookupA_mapValA_ne _ _ _ _ hm', hs1stats]
          · intro st0 hst0
            have hs2at : lookupA s2.cache_stats m = some
                { st0 with cache_hits := st0.cache_hits + 1,
                           total_requests := st0.total_requests + 1 } := by
              rw [hs2]
              dsimp only
              rw [lookupA_mapValA_self, hs1stats, hst0]
              rfl
            have := hc6 _ hs2at
            rw [this]
            have hfilt_hit :
                (rest.filter fun it => hitP s2 cfg m (_generate_text_hash it.text m) now) =
                (rest.filter fun it => hitP s cfg m (_generate_text_hash it.text m) now) := by
              apply List.filter_congr
              intro it _
              rw [hstable]
            have hfilt_miss :
                (rest.filter fun it => !(hitP s2 cfg m (_generate_text_hash it.text m) now)) =
                (rest.filter fun it => !(hitP s cfg m (_generate_text_hash it.text m) now)) := by
              apply List.filter_congr
              intro it _
              rw [hstable]
            rw [hfilt_hit, hfilt_miss]
            have e1 : (List.filter (fun it => hitP s cfg m (_generate_text_hash it.text m) now)
                (item :: rest)) =
                item :: (rest.filter fun it => hitP s cfg m (_generate_text_hash it.text m) now) := by
              simp [List.filter, ← hh0, hhit]
            have e2 : (List.filter (fun it => !(hitP s cfg m (_generate_text_hash it.text m) now))
                (item :: rest)) =
                rest.filter fun it => !(hitP s cfg m (_generate_text_hash it.text m) now) := by
              simp [List.filter, ← hh0, hhit]
            rw [e1, e2]
            congr 1
            simp only [List.length_cons]
            congr 1 <;> omega
      | none =>
          have hmiss : hitP s cfg m h0 now = false := by
            unfold hitP
            rw [← hfst, hr1]
            rfl
          have hstate : (_get_from_cache s h0 m cfg now).2 = s :=
            get_from_cache_miss_state s h0 m cfg now hr1
          have hbump := statsBumpMiss_eq s m hstats
          set s2 : ServiceState := { s with cache_stats := mapValA s.cache_stats m fun st => { st with cache_misses := st.cache_misses + 1, total_requests := st.total_requests + 1 } } with hs2
          have hs2stats : (lookupA s2.cache_stats m).isSome := by
            rw [hs2]
            dsimp only
            rw [lookupA_mapValA_isSome]
            exact hstats
          have hstable : ∀ ht : String, hitP s2 cfg m ht now = hitP s cfg m ht now := by
            intro ht
            exact hitP_congr _ _ _ _ _ _ rfl rfl
          obtain ⟨hits', s'', hloop, hlen, hc1, hc2, hc3, hc4, hc5, hc6⟩ := ih s2 hs2stats
          refine ⟨hits', s'', ?_, ?_, ?_, ?_, ?_, ?_, ?_, ?_⟩
          · show lookupLoop cfg m now (item :: rest) s = _
            rw [lookupLoop]
            rw [← hh0, hr1]
            dsimp only
            have hbump2 : statsBumpMiss s m = some s2 := by rw [hbump, hs2]
            rw [hstate, hbump2]
            dsimp only
            rw [hloop]
            have hfilt_miss :
                (rest.filter fun it => !(hitP s2 cfg m (_generate_text_hash it.text m) now)) =
                (rest.filter fun it => !(hitP s cfg m (_generate_text_hash it.text m) now)) := by
              apply List.filter_congr
              intro it _
              rw [hstable]
            rw [hfilt_miss]
            have : (List.filter (fun it => !(hitP s cfg m (_generate_text_hash it.text m) now))
                (item :: rest)) =
                item :: (rest.filter fun it => !(hitP s cfg m (_generate_text_hash it.text m) now)) := by
              simp [List.filter, ← hh0, hmiss]
            rw [this]
          · have hfilt_hit :
                (rest.filter fun it => hitP s2 cfg m (_generate_text_hash it.text m) now) =
                (rest.filter fun it => hitP s cfg m (_generate_text_hash it.text m) now) := by
              apply List.filter_congr
              intro it _
              rw [hstable]
            have : (List.filter (fun it => hitP s cfg m (_generate_text_hash it.text m) now)
                (item :: rest)) =
                rest.filter fun it => hitP s cfg m (_generate_text_hash it.text m) now := by
              simp [List.filter, ← hh0, hmiss]
            rw [this, hlen, hfilt_hit]
          · rw [hc1, hs2]
          · rw [hc2, hs2]
          · rw [hc3, hs2]
          · rw [hc4, hs2]
          · intro m' hm'
            rw [hc5 m' hm', hs2]
            dsimp only
            rw [lookupA_mapValA_ne _ _ _ _ hm']
          · intro st0 hst0
            have hs2at : lookupA s2.cache_stats m = some
                { st0 with cache_misses := st0.cache_misses + 1,
                           total_requests := st0.total_requests + 1 } := by
              rw [hs2]
              dsimp only
              rw [lookupA_mapValA_self, hst0]
              rfl
            have := hc6 _ hs2at
            rw [this]
            have hfilt_hit :
                (rest.filter fun it => hitP s2 cfg m (_generate_text_hash it.text m) now) =
                (rest.filter fun it => hitP s cfg m (_generate_text_hash it.text m) now) := by
              apply List.filter_congr
              intro it _
              rw [hstable]
            have hfilt_miss :
                (rest.filter fun it => !(hitP s2 cfg m (_generate_text_hash it.text m) now)) =
                (rest.filter fun it => !(hitP s cfg m (_generate_text_hash it.text m) now)) := by
              apply List.filter_congr
              intro it _
              rw [hstable]
            rw [hfilt_hit, hfilt_miss]
            have e1 : (List.filter (fun it => hitP s cfg m (_generate_text_hash it.text m) now)
                (item :: rest)) =
                rest.filter fun it => hitP s cfg m (_generate_text_hash it.text m) now := by
              simp [List.filter, ← hh0, hmiss]
            have e2 : (List.filter (fun it => !(hitP s cfg m (_generate_text_hash it.text m) now))
                (item :: rest)) =
                item :: (rest.filter fun it => !(hitP s cfg m (_generate_text_hash it.text m) now)) := by
              simp [List.filter, ← hh0, hmiss]
            rw [e1, e2]
            congr 1
            simp only [List.length_cons]
            congr 1 <;> omega

/-! ## The batch-lookup specification -/

/-- `get_cached_embeddings` on a model with config, stats and timing entries:
it succeeds, the misses are exactly the items whose hash missed in the initial
state (in order), the hits number exactly the hitting items, counters advance
by the hit/miss counts with `hit_rate` recomputed, and everything belonging to
other models is untouched. -/
theorem get_cached_embeddings_spec (s : ServiceState) (items : List TextItem)
    (m : String) (now rt : ℚ) (cfg : CacheConfig)
    (hcfg : getConfigOrMock s m = .ok cfg)
    (hstats : (lookupA s.cache_stats m).isSome)
    (htimes : (lookupA s.request_times m).isSome) :
    ∃ hits s',
      get_cached_embeddings s items m now rt =
        .ok (hits,
             items.filter (fun it => !(hitP s cfg m (_generate_text_hash it.text m) now)),
             s') ∧
      hits.length =
        (items.filter fun it => hitP s cfg m (_generate_text_hash it.text m) now).length ∧
      s'.cache_configs = s.cache_configs ∧
      s'.redis_client = s.redis_client ∧
      s'.memory_caches.map Prod.fst = s.memory_caches.map Prod.fst ∧
      (∀ m', m' ≠ m → lookupA s'.cache_stats m' = lookupA s.cache_stats m') ∧
      (∀ m', m' ≠ m → lookupA s'.request_times m' = lookupA s.request_times m') ∧
      (∃ times, lookupA s.request_times m = some times ∧
        lookupA s'.request_times m = some (times ++ [rt])) ∧
      (∀ st0, lookupA s.cache_stats m = some st0 →
        ∃ avg, lookupA s'.cache_stats m = some
          { st0 with
            cache_hits := st0.cache_hits +
              (items.filter fun it =>
                hitP s cfg m (_generate_text_hash it.text m) now).length,
            cache_misses := st0.cache_misses +
              (items.filter fun it =>
                !(hitP s cfg m (_generate_text_hash it.text m) now)).length,
            total_requests := st0.total_requests + items.length,
            hit_rate :=
              if st0.total_requests + items.length > 0 then
                ((st0.cache_hits +
                  (items.filter fun it =>
                    hitP s cfg m (_generate_text_hash it.text m) now).length : Nat) : ℚ) /
                ((st0.total_requests + items.length : Nat) : ℚ)
              else 0,
            avg_retrieval_time_ms := avg }) := by
  obtain ⟨hits, s1, hloop, hlen, hc1, hc2, hc3, hc4, hc5, hc6⟩ :=
    lookupLoop_spec cfg m now items s hstats
  cases hst0 : lookupA s.cache_stats m with
  | none => rw [hst0] at hstats; simp at hstats
  | some st0 =>
  cases htm : lookupA s.request_times m with
  | none => rw [htm] at htimes; simp at htimes
  | some times =>
  have hs1stats := hc6 st0 hst0
  have hs1times : lookupA s1.request_times m = some times := by rw [hc3, htm]
  refine ⟨hits,
    { s1 with
      request_times := insertA s1.request_times m (times ++ [rt]),
      cache_stats := mapValA s1.cache_stats m fun stOld =>
        { stOld with
          hit_rate :=
            if st0.total_requests + items.length > 0 then
              ((st0.cache_hits +
                (items.filter fun it =>
                  hitP s cfg m (_generate_text_hash it.text m) now).length : Nat) : ℚ) /
              ((st0.total_requests + items.length : Nat) : ℚ)
            else 0,
          avg_retrieval_time_ms :=
            (((times ++ [rt]).reverse.take 100).foldl (· + ·) 0) /
              ((min 100 (times ++ [rt]).length : Nat) : ℚ) } },
    ?_, hlen, ?_, ?_, ?_, ?_, ?_, ?_, ?_⟩
  · unfold get_cached_embeddings
    rw [hcfg]
    dsimp only
    rw [hloop]
    dsimp only
    rw [hs1times]
    dsimp only
    rw [hs1stats]
  · exact hc1
  · exact hc2
  · exact hc4
  · intro m' hm'
    dsimp only
    rw [lookupA_mapValA_ne _ _ _ _ hm']
    exact hc5 m' hm'
  · intro m' hm'
    dsimp only
    rw [lookupA_insertA_ne _ _ _ _ hm']
    rw [hc3]
  · refine ⟨times, rfl, ?_⟩
    dsimp only
    rw [lookupA_insertA_self]
  · intro st0' hst0'
    injection hst0' with hst0e
    subst hst0e
    refine ⟨(((times ++ [rt]).reverse.take 100).foldl (· + ·) 0) /
      ((min 100 (times ++ [rt]).length : Nat) : ℚ), ?_⟩
    dsimp only
    rw [lookupA_mapValA_self, hs1stats]
    rfl

/-! ## Store and invalidate: frame properties -/

/-- A registry holding "mock" always resolves a config. -/
theorem getConfigOrMock_ok (s : ServiceState) (m : String)
    (hmock : (lookupA s.cache_configs "mock").isSome) :
    ∃ cfg, getConfigOrMock s m = .ok cfg := by
  unfold getConfigOrMock
  cases hl : lookupA s.cache_configs "mock" with
  | none => rw [hl] at hmock; simp at hmock
  | some dflt => exact ⟨_, rfl⟩

/-- One tier write never touches configs, stats or timings, never creates or
destroys a memory tier, and cannot bring the remote client back. -/
theorem store_in_cache_frame (s : ServiceState) (text_hash : String)
    (e : CachedEmbedding) (m : String) (cfg : CacheConfig) (now : ℚ) :
    (_store_in_cache s text_hash e m cfg now).cache_configs = s.cache_configs ∧
    (_store_in_cache s text_hash e m cfg now).cache_stats = s.cache_stats ∧
    (_store_in_cache s text_hash e m cfg now).request_times = s.request_times ∧
    (_store_in_cache s text_hash e m cfg now).memory_caches.map Prod.fst =
      s.memory_caches.map Prod.fst ∧
    (s.redis_client = none → (_store_in_cache s text_hash e m cfg now).redis_client = none) := by
  unfold _store_in_cache
  dsimp only
  repeat' split
  all_goals refine ⟨rfl, rfl, rfl, ?_, ?_⟩
  all_goals first
    | rfl
    | (exact map_fst_insertA_of_mem _ _ _ (by simp_all))
    | (intro hn; rfl)
    | (intro hn; simp_all)

/-- `store_embeddings` under a registry with "mock": it always succeeds and
satisfies the same frame properties as the single-write primitive. -/
theorem store_embeddings_spec (s : ServiceState) (items : List TextItem)
    (results : List EmbeddingResult) (m : String) (now : ℚ)
    (hmock : (lookupA s.cache_configs "mock").isSome) :
    ∃ s', store_embeddings s items results m now = .ok s' ∧
      s'.cache_configs = s.cache_configs ∧
      s'.cache_stats = s.cache_stats ∧
      s'.request_times = s.request_times ∧
      s'.memory_caches.map Prod.fst = s.memory_caches.map Prod.fst ∧
      (s.redis_client = none → s'.redis_client = none) := by
  obtain ⟨cfg, hcfg⟩ := getConfigOrMock_ok s m hmock
  have hfold : ∀ (l : List (TextItem × EmbeddingResult)) (t : ServiceState),
      let t' := l.foldl (fun acc ir =>
        let text_hash := _generate_text_hash ir.1.text m
        let cached : CachedEmbedding :=
          { text_hash, model_name := m,
            embedding_vector := ir.2.vector,
            dimension := (ir.2.vector.length : Int),
            norm := ir.2.norm.getD 0,
            created_at := now, access_count := 1, last_accessed := now,
            compression_type := cfg.compression.value }
        _store_in_cache acc text_hash cached m cfg now) t
      t'.cache_configs = t.cache_configs ∧
      t'.cache_stats = t.cache_stats ∧
      t'.request_times = t.request_times ∧
      t'.memory_caches.map Prod.fst = t.memory_caches.map Prod.fst ∧
      (t.redis_client = none → t'.redis_client = none) := by
    intro l
    induction l with
    | nil => intro t; exact ⟨rfl, rfl, rfl, rfl, fun h => h⟩
    | cons ir rest ihl =>
        intro t
        have hstep := store_in_cache_frame t (_generate_text_hash ir.1.text m)
          { text_hash := _generate_text_hash ir.1.text m, model_name := m,
            embedding_vector := ir.2.vector,
            dimension := (ir.2.vector.length : Int),
            norm := ir.2.norm.getD 0,
            created_at := now, access_count := 1, last_accessed := now,
            compression_type := cfg.compression.value } m cfg now
        obtain ⟨ha1, ha2, ha3, ha4, ha5⟩ := hstep
        obtain ⟨hb1, hb2, hb3, hb4, hb5⟩ := ihl (_store_in_cache t
          (_generate_text_hash ir.1.text m) _ m cfg now)
        refine ⟨?_, ?_, ?_, ?_, ?_⟩
        · rw [List.foldl_cons] at *
          exact hb1.trans ha1
        · rw [List.foldl_cons] at *
          exact hb2.trans ha2
        · rw [List.foldl_cons] at *
          exact hb3.trans ha3
        · rw [List.foldl_cons] at *
          exact hb4.trans ha4
        · intro hn
          rw [List.foldl_cons] at *
          exact hb5 (ha5 hn)
  obtain ⟨h1, h2, h3, h4, h5⟩ := hfold (items.zip results) s
  refine ⟨_, ?_, h1, h2, h3, h4, h5⟩
  unfold store_embeddings
  rw [hcfg]

/-! ## Inversion: a successful lookup call presupposes the model's records -/

theorem lookupLoop_ok_inv (cfg : CacheConfig) (m : String) (now : ℚ) :
    ∀ (items : List TextItem) (s : ServiceState)
      (out : List CachedEmbedding × List TextItem × ServiceState),
      lookupLoop cfg m now items s = .ok out →
      out.2.2.request_times = s.request_times ∧
      (∀ m', (lookupA out.2.2.cache_stats m').isSome = (lookupA s.cache_stats m').isSome) := by
  intro items
  induction items with
  | nil =>
      intro s out h
      rw [lookupLoop] at h
      cases h
      exact ⟨rfl, fun m' => rfl⟩
  | cons item rest ih =>
      intro s out h
      rw [lookupLoop] at h
      cases hr1 : (_get_from_cache s (_generate_text_hash item.text m) m cfg now).1 with
      | some cached =>
          rw [hr1] at h
          dsimp only at h
          set s1x := (if cfg.strategy = .MEMORY_ONLY ∨ cfg.strategy = .HYBRID then
              bumpShared (_get_from_cache s (_generate_text_hash item.text m) m cfg now).2
                m (_generate_text_hash item.text m) now
            else (_get_from_cache s (_generate_text_hash item.text m) m cfg now).2) with hs1x
          have hs1xstats : s1x.cache_stats = s.cache_stats := by
            rw [hs1x]
            split <;>
              simp [bumpShared, (get_from_cache_frame s (_generate_text_hash item.text m)
                m cfg now).2.2.1]
          have hs1xtimes : s1x.request_times = s.request_times := by
            rw [hs1x]
            split <;>
              simp [bumpShared, (get_from_cache_frame s (_generate_text_hash item.text m)
                m cfg now).2.2.2.1]
          cases hsb : statsBumpHit s1x m with
          | none => rw [hsb] at h; cases h
          | some s2 =>
              rw [hsb] at h
              dsimp only at h
              cases hloop2 : lookupLoop cfg m now rest s2 with
              | error e => rw [hloop2] at h; cases h
              | ok out2 =>
                  rw [hloop2] at h
                  obtain ⟨hits2, misses2, s3⟩ := out2
                  dsimp only at h
                  cases h
                  have hinv := ih s2 (hits2, misses2, s3) hloop2
                  have hs2 : s2 = { s1x with cache_stats := mapValA s1x.cache_stats m fun st => { st with cache_hits := st.cache_hits + 1, total_requests := st.total_requests + 1 } } := by
                    unfold statsBumpHit at hsb
                    cases hl : lookupA s1x.cache_stats m with
                    | none => rw [hl] at hsb; cases hsb
                    | some st => rw [hl] at hsb; cases hsb; rfl
                  refine ⟨?_, ?_⟩
                  · rw [hinv.1, hs2]
                    exact hs1xtimes
                  · intro m'
                    rw [hinv.2 m', hs2]
                    dsimp only
                    rw [lookupA_mapValA_isSome, hs1xstats]
      | none =>
          rw [hr1] at h
          dsimp only at h
          have hstate := get_from_cache_miss_state s (_generate_text_hash item.text m)
            m cfg now hr1
          rw [hstate] at h
          cases hsb : statsBumpMiss s m with
          | none => rw [hsb] at h; cases h
          | some s2 =>
              rw [hsb] at h
              dsimp only at h
              cases hloop2 : lookupLoop cfg m now rest s2 with
              | error e => rw [hloop2] at h; cases h
              | ok out2 =>
                  rw [hloop2] at h
                  obtain ⟨hits2, misses2, s3⟩ := out2
                  dsimp only at h
                  cases h
                  have hinv := ih s2 (hits2, misses2, s3) hloop2
                  have hs2 : s2 = { s with cache_stats := mapValA s.cache_stats m fun st => { st with cache_misses := st.cache_misses + 1, total_requests := st.total_requests + 1 } } := by
                    unfold statsBumpMiss at hsb
                    cases hl : lookupA s.cache_stats m with
                    | none => rw [hl] at hsb; cases hsb
                    | some st => rw [hl] at hsb; cases hsb; rfl
                  refine ⟨?_, ?_⟩
                  · rw [hinv.1, hs2]
                  · intro m'
                    rw [hinv.2 m', hs2]
                    dsimp only
                    rw [lookupA_mapValA_isSome]

/-- A successful `get_cached_embeddings` call presupposes a mock-backed
registry and per-model stats and timing entries. -/
theorem get_ok_preconditions (s : ServiceState) (items : List TextItem)
    (m : String) (now rt : ℚ)
    (out : List CachedEmbedding × List TextItem × ServiceState)
    (h : get_cached_embeddings s items m now rt = .ok out) :
    (∃ cfg, getConfigOrMock s m = .ok cfg) ∧
    (lookupA s.cache_stats m).isSome ∧
    (lookupA s.request_times m).isSome := by
  unfold get_cached_embeddings at h
  cases hcfg : getConfigOrMock s m with
  | error e => rw [hcfg] at h; cases h
  | ok cfg =>
      rw [hcfg] at h
      dsimp only at h
      cases hloop : lookupLoop cfg m now items s with
      | error e => rw [hloop] at h; cases h
      | ok out1 =>
          rw [hloop] at h
          obtain ⟨hits1, misses1, s1⟩ := out1
          dsimp only at h
          have hinv := lookupLoop_ok_inv cfg m now items s (hits1, misses1, s1) hloop
          cases htm : lookupA s1.request_times m with
          | none => rw [htm] at h; cases h
          | some times =>
              rw [htm] at h
              dsimp only at h
              cases hst : lookupA s1.cache_stats m with
              | none => rw [hst] at h; cases h
              | some st =>
                  refine ⟨⟨cfg, rfl⟩, ?_, ?_⟩
                  · have h2 := hinv.2 m
                    rw [hst] at h2
                    exact h2.symm
                  · rw [← hinv.1, htm]
                    rfl

/-! ## Invalidation frame properties -/

theorem clearOneModel_frame (s : ServiceState) (m : String) (tp : Option String) :
    (clearOneModel s m tp).cache_configs = s.cache_configs ∧
    (clearOneModel s m tp).cache_stats = s.cache_stats ∧
    (clearOneModel s m tp).request_times = s.request_times ∧
    (clearOneModel s m tp).memory_caches.map Prod.fst = s.memory_caches.map Prod.fst ∧
    (s.redis_client = none → (clearOneModel s m tp).redis_client = none) := by
  unfold clearOneModel
  dsimp only
  repeat' split
  all_goals refine ⟨rfl, rfl, rfl, ?_, ?_⟩
  all_goals first
    | rfl
    | (exact map_fst_insertA_of_mem _ _ _ (by simp_all))
    | (intro hn; rfl)
    | (intro hn; simp_all)

theorem clearFold_frame (tp : Option String) :
    ∀ (models : List String) (t : ServiceState),
      (models.foldl (fun acc m => clearOneModel acc m tp) t).cache_configs =
        t.cache_configs ∧
      (models.foldl (fun acc m => clearOneModel acc m tp) t).cache_stats =
        t.cache_stats ∧
      (models.foldl (fun acc m => clearOneModel acc m tp) t).request_times =
        t.request_times ∧
      (models.foldl (fun acc m => clearOneModel acc m tp) t).memory_caches.map Prod.fst =
        t.memory_caches.map Prod.fst ∧
      (t.redis_client = none →
        (models.foldl (fun acc m => clearOneModel acc m tp) t).redis_client = none) := by
  intro models
  induction models with
  | nil => intro t; exact ⟨rfl, rfl, rfl, rfl, fun h => h⟩
  | cons m0 rest ih =>
      intro t
      obtain ⟨ha1, ha2, ha3, ha4, ha5⟩ := clearOneModel_frame t m0 tp
      obtain ⟨hb1, hb2, hb3, hb4, hb5⟩ := ih (clearOneModel t m0 tp)
      exact ⟨hb1.trans ha1, hb2.trans ha2, hb3.trans ha3, hb4.trans ha4,
        fun hn => hb5 (ha5 hn)⟩

theorem invalidate_cache_frame (s : ServiceState) (mn tp : Option String)
    (s' : ServiceState) (h : invalidate_cache s mn tp = .ok s') :
    s'.cache_configs = s.cache_configs ∧
    s'.cache_stats = s.cache_stats ∧
    s'.request_times = s.request_times ∧
    s'.memory_caches.map Prod.fst = s.memory_caches.map Prod.fst ∧
    (s.redis_client = none → s'.redis_client = none) := by
  cases mn with
  | some m =>
      unfold invalidate_cache at h
      dsimp only at h
      by_cases hm0 : m = ""
      · rw [if_pos hm0] at h
        cases h
        exact clearFold_frame tp (s.cache_configs.map Prod.fst) s
      · rw [if_neg hm0] at h
        by_cases hc : (lookupA s.cache_configs m).isNone
        · rw [if_pos hc] at h
          cases h
        · rw [if_neg hc] at h
          cases h
          exact clearOneModel_frame s m tp
  | none =>
      unfold invalidate_cache at h
      dsimp only at h
      cases h
      exact clearFold_frame tp (s.cache_configs.map Prod.fst) s

/-! ## Reachability and the statistics invariant -/

/-- States the service can be in: freshly initialized (with either probe
outcome, any pre-existing remote keyspace and any start time), or the result
of any successful lookup, store or invalidate call on a reachable state. -/
inductive Reachable : ServiceState → Prop where
  | init (avail : Bool) (r0 : RedisStore) (t0 : ℚ) : Reachable (initService avail r0 t0)
  | lookup (s : ServiceState) (items : List TextItem) (m : String) (now rt : ℚ)
      (out : List CachedEmbedding × List TextItem × ServiceState) :
      Reachable s → get_cached_embeddings s items m now rt = .ok out →
      Reachable out.2.2
  | store (s : ServiceState) (items : List TextItem) (results : List EmbeddingResult)
      (m : String) (now : ℚ) (s' : ServiceState) :
      Reachable s → store_embeddings s items results m now = .ok s' → Reachable s'
  | invalidate (s : ServiceState) (mn tp : Option String) (s' : ServiceState) :
      Reachable s → invalidate_cache s mn tp = .ok s' → Reachable s'

/-- The claimed per-model statistics invariant. -/
def StatsInv (s : ServiceState) : Prop :=
  ∀ m st, lookupA s.cache_stats m = some st →
    st.cache_hits + st.cache_misses = st.total_requests ∧
    st.hit_rate =
      (if st.total_requests = 0 then 0
       else (st.cache_hits : ℚ) / (st.total_requests : ℚ))

theorem lookupA_map_stats (configs : List (String × CacheConfig)) (t0 : ℚ)
    (m : String) (st : CacheStats)
    (h : lookupA (configs.map fun mc => (mc.1, initialStats mc.1 t0)) m = some st) :
    st = initialStats m t0 := by
  induction configs with
  | nil => cases h
  | cons kc rest ih =>
      obtain ⟨k, c⟩ := kc
      by_cases hk : k = m
      · subst hk
        simp [lookupA] at h
        exact h.symm
      · simp [lookupA, hk] at h
        exact ih h

theorem statsInv_init (avail : Bool) (r0 : RedisStore) (t0 : ℚ) :
    StatsInv (initService avail r0 t0) := by
  intro m st h
  have : st = initialStats m t0 := lookupA_map_stats initialConfigs t0 m st h
  subst this
  simp [initialStats]

theorem statsInv_of_eq (s s' : ServiceState) (h : s'.cache_stats = s.cache_stats)
    (hs : StatsInv s) : StatsInv s' := by
  intro m st hl
  rw [h] at hl
  exact hs m st hl

theorem statsInv_lookup (s : ServiceState) (items : List TextItem) (m : String)
    (now rt : ℚ) (out : List CachedEmbedding × List TextItem × ServiceState)
    (h : get_cached_embeddings s items m now rt = .ok out)
    (hs : StatsInv s) : StatsInv out.2.2 := by
  obtain ⟨⟨cfg, hcfg⟩, hstats, htimes⟩ := get_ok_preconditions s items m now rt out h
  obtain ⟨hits, s', hrun, hlen, hc1, hc2, hc3, hc4, hc5, hc6, hc7⟩ :=
    get_cached_embeddings_spec s items m now rt cfg hcfg hstats htimes
  rw [hrun] at h
  cases h
  intro m' st' hl
  by_cases hm : m' = m
  · subst hm
    cases hst0 : lookupA s.cache_stats m' with
    | none => rw [hst0] at hstats; simp at hstats
    | some st0 =>
        obtain ⟨avg, hfin⟩ := hc7 st0 hst0
        rw [hfin] at hl
        injection hl with hl
        subst hl
        obtain ⟨hinv1, _⟩ := hs m' st0 hst0
        have hpart := length_filter_partition
          (fun it => hitP s cfg m' (_generate_text_hash it.text m') now) items
        constructor
        · dsimp only
          omega
        · dsimp only
          by_cases hz : st0.total_requests + items.length = 0
          · simp [hz]
          · rw [if_neg hz, if_pos (Nat.pos_of_ne_zero hz)]
  · rw [hc4 m' hm] at hl
    exact hs m' st' hl

theorem statsInv_reachable (s : ServiceState) (h : Reachable s) : StatsInv s := by
  induction h with
  | init avail r0 t0 => exact statsInv_init avail r0 t0
  | lookup s items m now rt out hr hok ih => exact statsInv_lookup s items m now rt out hok ih
  | store s items results m now s' hr hok ih =>
      obtain ⟨cfg, hcfg⟩ : ∃ cfg, getConfigOrMock s m = .ok cfg := by
        unfold store_embeddings at hok
        cases hcfg : getConfigOrMock s m with
        | error e => rw [hcfg] at hok; cases hok
        | ok cfg => exact ⟨cfg, rfl⟩
      have hmock : (lookupA s.cache_configs "mock").isSome := by
        unfold getConfigOrMock at hcfg
        cases hl : lookupA s.cache_configs "mock" with
        | none => rw [hl] at hcfg; cases hcfg
        | some d => simp
      obtain ⟨s'', hok'', h1, h2, h3, h4, h5⟩ :=
        store_embeddings_spec s items results m now hmock
      rw [hok''] at hok
      cases hok
      exact statsInv_of_eq _ _ h2 ih
  | invalidate s mn tp s' hr hok ih =>
      exact statsInv_of_eq s s' (invalidate_cache_frame s mn tp s' hok).2.1 ih

/-! ## Remote-down behavior (claim C4 machinery)

With the client gone, `_get_from_cache` is a pure probe that never touches
the state, and a HYBRID config behaves exactly like the same config with
strategy MEMORY_ONLY. -/

theorem get_from_cache_redis_none (s : ServiceState) (text_hash m : String)
    (cfg : CacheConfig) (now : ℚ) (hred : s.redis_client = none) :
    _get_from_cache s text_hash m cfg now =
      (probeCache s.memory_caches none text_hash m cfg now, s) := by
  have h1 := get_from_cache_fst s text_hash m cfg now
  rw [hred] at h1
  rcases get_from_cache_snd_promote s text_hash m cfg now with he |
    ⟨mc, cached, r, payload, hstrat, hmc, hmiss, hredsome, hget, hdec, he⟩
  · exact Prod.ext h1 he
  · rw [hred] at hredsome
    cases hredsome

theorem probe_hybrid_memory_only (mems : List (String × MemCache))
    (text_hash m : String) (cfg : CacheConfig) (now : ℚ)
    (hH : cfg.strategy = .HYBRID) :
    probeCache mems none text_hash m cfg now =
      probeCache mems none text_hash m { cfg with strategy := .MEMORY_ONLY } now := by
  unfold probeCache
  rw [hH]
  dsimp only
  split <;> simp_all

/-- Re-pin a state's config registry (all other fields kept). -/
def reCfg (cc : List (String × CacheConfig)) (t : ServiceState) : ServiceState :=
  { t with cache_configs := cc }

theorem bumpShared_reCfg (cc : List (String × CacheConfig)) (t : ServiceState)
    (m h : String) (now : ℚ) :
    bumpShared (reCfg cc t) m h now = reCfg cc (bumpShared t m h now) := rfl

theorem statsBumpHit_reCfg (cc : List (String × CacheConfig)) (t : ServiceState)
    (m : String) :
    statsBumpHit (reCfg cc t) m = (statsBumpHit t m).map (reCfg cc) := by
  unfold statsBumpHit reCfg
  dsimp only
  cases lookupA t.cache_stats m <;> rfl

theorem statsBumpMiss_reCfg (cc : List (String × CacheConfig)) (t : ServiceState)
    (m : String) :
    statsBumpMiss (reCfg cc t) m = (statsBumpMiss t m).map (reCfg cc) := by
  unfold statsBumpMiss reCfg
  dsimp only
  cases lookupA t.cache_stats m <;> rfl

/-- With the remote client gone, one loop over the same items behaves under
the downgraded MEMORY_ONLY config (in a state differing only in its config
registry) exactly as it does under the HYBRID config, up to that registry. -/
theorem lookupLoop_hybrid_memory_only (cfg : CacheConfig) (m : String) (now : ℚ)
    (cc : List (String × CacheConfig)) (hH : cfg.strategy = .HYBRID) :
    ∀ (items : List TextItem) (s : ServiceState), s.redis_client = none →
      lookupLoop { cfg with strategy := .MEMORY_ONLY } m now items (reCfg cc s) =
        (lookupLoop cfg m now items s).map
          (fun out => (out.1, out.2.1, reCfg cc out.2.2)) := by
  intro items
  induction items with
  | nil => intro s hred; rfl
  | cons item rest ih =>
      intro s hred
      have hredc : (reCfg cc s).redis_client = none := hred
      rw [lookupLoop, lookupLoop]
      rw [get_from_cache_redis_none s _ m cfg now hred,
          get_from_cache_redis_none (reCfg cc s) _ m _ now hredc]
      dsimp only
      have hprobe : probeCache (reCfg cc s).memory_caches none
          (_generate_text_hash item.text m) m { cfg with strategy := .MEMORY_ONLY } now =
          probeCache s.memory_caches none (_generate_text_hash item.text m) m cfg now := by
        have : (reCfg cc s).memory_caches = s.memory_caches := rfl
        rw [this, ← probe_hybrid_memory_only s.memory_caches _ m cfg now hH]
      rw [hprobe]
      cases hp : probeCache s.memory_caches none (_generate_text_hash item.text m) m cfg now with
      | some cached =>
          dsimp only
          have hifH : (cfg.strategy = CacheStrategy.MEMORY_ONLY ∨
              cfg.strategy = CacheStrategy.HYBRID) := Or.inr hH
          have hifM : (({ cfg with strategy := CacheStrategy.MEMORY_ONLY } :
              CacheConfig).strategy = CacheStrategy.MEMORY_ONLY ∨
              ({ cfg with strategy := CacheStrategy.MEMORY_ONLY } :
              CacheConfig).strategy = CacheStrategy.HYBRID) := Or.inl rfl
          rw [if_pos hifH, if_pos hifM]
          rw [bumpShared_reCfg, statsBumpHit_reCfg]
          cases hsb : statsBumpHit (bumpShared s m (_generate_text_hash item.text m) now) m with
          | none => rfl
          | some s2 =>
              dsimp only [Option.map_some']
              rw [ih s2 ?hred2]
              case hred2 =>
                have h1 : s2.redis_client =
                    (bumpShared s m (_generate_text_hash item.text m) now).redis_client := by
                  unfold statsBumpHit at hsb
                  cases hl : lookupA (bumpShared s m
                      (_generate_text_hash item.text m) now).cache_stats m with
                  | none => rw [hl] at hsb; cases hsb
                  | some st => rw [hl] at hsb; cases hsb; rfl
                rw [h1]
                exact hred
              cases lookupLoop cfg m now rest s2 <;> rfl
      | none =>
          dsimp only
          rw [statsBumpMiss_reCfg]
          cases hsb : statsBumpMiss s m with
          | none => rfl
          | some s2 =>
              dsimp only [Option.map_some']
              rw [ih s2 ?hred3]
              case hred3 =>
                have h1 : s2.redis_client = s.redis_client := by
                  unfold statsBumpMiss at hsb
                  cases hl : lookupA s.cache_stats m with
                  | none => rw [hl] at hsb; cases hsb
                  | some st => rw [hl] at hsb; cases hsb; rfl
                rw [h1]
                exact hred
              cases lookupLoop cfg m now rest s2 <;> rfl

/-- With the remote client gone, a whole batch lookup for a model whose
config is HYBRID coincides, output for output and tier for tier, with the
same call made after rewriting that model's strategy to MEMORY_ONLY. -/
theorem get_hybrid_memory_only (s : ServiceState) (m : String) (cfg : CacheConfig)
    (items : List TextItem) (now rt : ℚ)
    (hred : s.redis_client = none)
    (hcfg : lookupA s.cache_configs m = some cfg)
    (hH : cfg.strategy = .HYBRID)
    (hmock : (lookupA s.cache_configs "mock").isSome) :
    get_cached_embeddings
      (reCfg (insertA s.cache_configs m { cfg with strategy := .MEMORY_ONLY }) s)
      items m now rt =
    (get_cached_embeddings s items m now rt).map
      (fun out => (out.1, out.2.1,
        reCfg (insertA s.cache_configs m { cfg with strategy := .MEMORY_ONLY }) out.2.2)) := by
  set cc := insertA s.cache_configs m { cfg with strategy := .MEMORY_ONLY } with hcc
  have hmock' : (lookupA cc "mock").isSome := by
    by_cases hmm : "mock" = m
    · subst hmm
      rw [hcc, lookupA_insertA_self]
      rfl
    · rw [hcc, lookupA_insertA_ne _ _ _ _ hmm]
      exact hmock
  have hres : getConfigOrMock s m = .ok cfg := by
    unfold getConfigOrMock
    cases hl : lookupA s.cache_configs "mock" with
    | none => rw [hl] at hmock; cases hmock
    | some d => rw [hcfg]; rfl
  have hresM : getConfigOrMock (reCfg cc s) m = .ok { cfg with strategy := .MEMORY_ONLY } := by
    unfold getConfigOrMock reCfg
    dsimp only
    cases hl : lookupA cc "mock" with
    | none => rw [hl] at hmock'; cases hmock'
    | some d =>
        rw [hcc, lookupA_insertA_self]
        rfl
  unfold get_cached_embeddings
  rw [hres, hresM]
  dsimp only
  have hloopeq := lookupLoop_hybrid_memory_only cfg m now cc hH items s hred
  rw [hloopeq]
  cases hlp : lookupLoop cfg m now items s with
  | error e => rfl
  | ok out1 =>
      obtain ⟨hits1, misses1, s1⟩ := out1
      dsimp only [Except.map, reCfg]
      cases htm : lookupA s1.request_times m with
      | none => rfl
      | some times =>
          dsimp only
          cases hst : lookupA s1.cache_stats m with
          | none => rfl
          | some st => rfl

/-! ## Registry enumeration -/

theorem lookupA_five {α : Type} (k1 k2 k3 k4 k5 : String) (v1 v2 v3 v4 v5 : α)
    (m : String) (v : α)
    (h : lookupA [(k1, v1), (k2, v2), (k3, v3), (k4, v4), (k5, v5)] m = some v) :
    (m = k1 ∧ v = v1) ∨ (m = k2 ∧ v = v2) ∨ (m = k3 ∧ v = v3) ∨
    (m = k4 ∧ v = v4) ∨ (m = k5 ∧ v = v5) := by
  simp only [lookupA] at h
  repeat' split at h
  all_goals first
    | (injection h with h2; subst h2; simp_all)
    | cases h

/-- The post-downgrade registry, in closed form. -/
theorem downgraded_configs_eq (r0 : RedisStore) :
    (_initialize_redis false r0 initialConfigs).2 =
      [("mock", mockConfig),
       ("kobert", { kobertConfig with strategy := .MEMORY_ONLY }),
       ("roberta", { robertaConfig with strategy := .MEMORY_ONLY }),
       ("onnx_kobert", { onnxKobertConfig with strategy := .MEMORY_ONLY }),
       ("onnx_roberta", { onnxRobertaConfig with strategy := .MEMORY_ONLY })] := by
  rfl

/-- Claim C4, downgrade part: when the probe fails, every registry entry with
a remote-dependent strategy is rewritten to MEMORY_ONLY (and the rest are
untouched). -/
theorem init_downgrade (r0 : RedisStore) (t0 : ℚ) (m : String) (cfg0 : CacheConfig)
    (h : lookupA initialConfigs m = some cfg0)
    (hstrat : cfg0.strategy = .REDIS_ONLY ∨ cfg0.strategy = .HYBRID ∨
      cfg0.strategy = .PERSISTENT) :
    lookupA (initService false r0 t0).cache_configs m =
      some { cfg0 with strategy := .MEMORY_ONLY } := by
  have hc : (initService false r0 t0).cache_configs =
      (_initialize_redis false r0 initialConfigs).2 := rfl
  rw [hc, downgraded_configs_eq]
  rcases lookupA_five _ _ _ _ _ _ _ _ _ _ _ _ h with
    ⟨he, hv⟩ | ⟨he, hv⟩ | ⟨he, hv⟩ | ⟨he, hv⟩ | ⟨he, hv⟩ <;> subst he <;> subst hv
  · exact absurd hstrat (by decide)
  · decide
  · decide
  · decide
  · decide

/-- Every post-downgrade strategy is MEMORY_ONLY. -/
theorem init_downgrade_all (r0 : RedisStore) (t0 : ℚ) (m : String) (cfg : CacheConfig)
    (h : lookupA (initService false r0 t0).cache_configs m = some cfg) :
    cfg.strategy = .MEMORY_ONLY := by
  have hc : (initService false r0 t0).cache_configs =
      (_initialize_redis false r0 initialConfigs).2 := rfl
  rw [hc, downgraded_configs_eq] at h
  rcases lookupA_five _ _ _ _ _ _ _ _ _ _ _ _ h with
    ⟨he, hv⟩ | ⟨he, hv⟩ | ⟨he, hv⟩ | ⟨he, hv⟩ | ⟨he, hv⟩ <;> subst hv <;> rfl

/-- The memory tiers built at startup, in closed form: only the MEMORY_ONLY
and HYBRID models get one, with the tier ttl copied from the config. -/
theorem init_memory_caches_eq (avail : Bool) (r0 : RedisStore) (t0 : ℚ) :
    (initService avail r0 t0).memory_caches =
      [("mock", ⟨3600, []⟩), ("kobert", ⟨86400, []⟩), ("roberta", ⟨86400, []⟩)] := by
  cases avail <;> rfl

/-- A memory tier exists exactly for the models whose configured (original)
strategy is MEMORY_ONLY or HYBRID. -/
theorem init_memory_tier_iff (avail : Bool) (r0 : RedisStore) (t0 : ℚ)
    (m : String) (cfg : CacheConfig) (h : lookupA initialConfigs m = some cfg) :
    (lookupA (initService avail r0 t0).memory_caches m).isSome ↔
      (cfg.strategy = .MEMORY_ONLY ∨ cfg.strategy = .HYBRID) := by
  rw [init_memory_caches_eq]
  rcases lookupA_five _ _ _ _ _ _ _ _ _ _ _ _ h with
    ⟨he, hv⟩ | ⟨he, hv⟩ | ⟨he, hv⟩ | ⟨he, hv⟩ | ⟨he, hv⟩ <;> subst he <;> subst hv <;> decide

/-! ## No-tier behavior (claim C10 machinery) -/

/-- With no remote client and no memory tier for the model, every probe
misses and the state is untouched. -/
theorem get_from_cache_no_tier (s : ServiceState) (text_hash m : String)
    (cfg : CacheConfig) (now : ℚ) (hred : s.redis_client = none)
    (hmem : lookupA s.memory_caches m = none) :
    _get_from_cache s text_hash m cfg now = (none, s) := by
  rw [get_from_cache_redis_none s text_hash m cfg now hred]
  unfold probeCache memProbe
  rw [hmem]
  dsimp only
  repeat' split
  all_goals simp_all

/-- With no remote client and no memory tier for the model, a store writes
nowhere. -/
theorem store_in_cache_no_tier (s : ServiceState) (text_hash : String)
    (e : CachedEmbedding) (m : String) (cfg : CacheConfig) (now : ℚ)
    (hred : s.redis_client = none) (hmem : lookupA s.memory_caches m = none) :
    _store_in_cache s text_hash e m cfg now = s := by
  unfold _store_in_cache
  dsimp only
  repeat' split
  all_goals simp_all

/-- Batch version of the no-tier store: the call succeeds and returns the
state unchanged. -/
theorem store_embeddings_no_tier (s : ServiceState) (items : List TextItem)
    (results : List EmbeddingResult) (m : String) (now : ℚ)
    (hmock : (lookupA s.cache_configs "mock").isSome)
    (hred : s.redis_client = none) (hmem : lookupA s.memory_caches m = none) :
    store_embeddings s items results m now = .ok s := by
  obtain ⟨cfg, hcfg⟩ := getConfigOrMock_ok s m hmock
  unfold store_embeddings
  rw [hcfg]
  dsimp only
  congr 1
  induction items.zip results with
  | nil => rfl
  | cons ir rest ih =>
      rw [List.foldl_cons]
      rw [store_in_cache_no_tier s _ _ m cfg now hred hmem]
      exact ih

/-! ## Invalidation scope (claim C9 machinery) -/

theorem isPrefixOf_append_false (p k t : List Char)
    (h12 : p.isPrefixOf k = false) (h21 : k.isPrefixOf p = false) :
    p.isPrefixOf (k ++ t) = false := by
  have h12' : ¬ p <+: k := fun hc => by
    rw [← List.isPrefixOf_iff_prefix] at hc
    rw [hc] at h12
    cases h12
  have h21' : ¬ k <+: p := fun hc => by
    rw [← List.isPrefixOf_iff_prefix] at hc
    rw [hc] at h21
    cases h21
  by_cases h : p.isPrefixOf (k ++ t) = true
  · exfalso
    have hp := List.isPrefixOf_iff_prefix.mp h
    by_cases hle : p.length ≤ k.length
    · exact h12' (List.prefix_of_prefix_length_le hp (List.prefix_append k t) hle)
    · exact h21' (List.prefix_of_prefix_length_le (List.prefix_append k t) hp
        (Nat.le_of_lt (Nat.lt_of_not_le hle)))
  · exact Bool.eq_false_iff.mpr h

theorem lookupA_filter_keep {α : Type} (l : List (String × α)) (p : String × α → Bool)
    (k : String) (hp : ∀ v, p (k, v) = true) :
    lookupA (l.filter p) k = lookupA l k := by
  induction l with
  | nil => rfl
  | cons kv rest ih =>
      obtain ⟨k0, v0⟩ := kv
      by_cases h0 : k0 = k
      · subst h0
        simp [List.filter, hp v0, lookupA]
      · by_cases hkeep : p (k0, v0) <;> simp [List.filter, hkeep, lookupA, h0, ih]

theorem lookupA_filter_out {α : Type} (l : List (String × α)) (p : String × α → Bool)
    (k : String) (hp : ∀ v, p (k, v) = false) :
    lookupA (l.filter p) k = none := by
  induction l with
  | nil => rfl
  | cons kv rest ih =>
      obtain ⟨k0, v0⟩ := kv
      by_cases h0 : k0 = k
      · subst h0
        simp [List.filter, hp v0, lookupA, ih]
      · by_cases hkeep : p (k0, v0) <;> simp [List.filter, hkeep, lookupA, h0, ih]

/-- Distinct configured models have mutually prefix-free remote key spaces,
in both the original and the downgraded registry. -/
theorem configs_prefix_free (cc : List (String × CacheConfig))
    (hcc : cc = initialConfigs ∨ cc = (_initialize_redis false [] initialConfigs).2)
    (m m' : String) (cfg cfg' : CacheConfig) (hne : m' ≠ m)
    (h : lookupA cc m = some cfg) (h' : lookupA cc m' = some cfg') :
    cfg.redis_key_pref.data.isPrefixOf cfg'.redis_key_pref.data = false ∧
    cfg'.redis_key_pref.data.isPrefixOf cfg.redis_key_pref.data = false := by
  rcases hcc with rfl | heq
  · rcases lookupA_five _ _ _ _ _ _ _ _ _ _ _ _ h with
      ⟨he, hv⟩ | ⟨he, hv⟩ | ⟨he, hv⟩ | ⟨he, hv⟩ | ⟨he, hv⟩ <;>
    rcases lookupA_five _ _ _ _ _ _ _ _ _ _ _ _ h' with
      ⟨he2, hv2⟩ | ⟨he2, hv2⟩ | ⟨he2, hv2⟩ | ⟨he2, hv2⟩ | ⟨he2, hv2⟩ <;>
    subst_vars <;> first | (exact absurd rfl hne) | decide
  · rw [heq, downgraded_configs_eq] at h h'
    rcases lookupA_five _ _ _ _ _ _ _ _ _ _ _ _ h with
      ⟨he, hv⟩ | ⟨he, hv⟩ | ⟨he, hv⟩ | ⟨he, hv⟩ | ⟨he, hv⟩ <;>
    rcases lookupA_five _ _ _ _ _ _ _ _ _ _ _ _ h' with
      ⟨he2, hv2⟩ | ⟨he2, hv2⟩ | ⟨he2, hv2⟩ | ⟨he2, hv2⟩ | ⟨he2, hv2⟩ <;>
    subst_vars <;> first | (exact absurd rfl hne) | decide

theorem clearOne_configs (t : ServiceState) (m0 : String) (tp : Option String) :
    (clearOneModel t m0 tp).cache_configs = t.cache_configs :=
  (clearOneModel_frame t m0 tp).1

theorem clearOne_mem_other (t : ServiceState) (m0 m' : String) (tp : Option String)
    (hne : m' ≠ m0) :
    lookupA (clearOneModel t m0 tp).memory_caches m' = lookupA t.memory_caches m' := by
  unfold clearOneModel
  dsimp only
  repeat' split
  all_goals first
    | rfl
    | (exact lookupA_insertA_ne _ _ _ _ hne)

theorem clearOne_mem_self (t : ServiceState) (m' : String) (cfg' : CacheConfig)
    (hc : lookupA t.cache_configs m' = some cfg') :
    lookupA (clearOneModel t m' none).memory_caches m' =
      (lookupA t.memory_caches m').map (fun mc => { mc with entries := [] }) := by
  unfold clearOneModel
  rw [hc]
  dsimp only
  cases hm : lookupA t.memory_caches m' with
  | none =>
      dsimp only
      cases hr : t.redis_client <;> simp [hm]
  | some mc =>
      dsimp only
      cases hr : t.redis_client <;>
        simp [lookupA_insertA_self, clearModelMem]

/-- The remote side of clearing one configured model, no pattern: every key
is filtered through "does not start with this model's key space". -/
theorem clearOne_redis_self (t : ServiceState) (m' : String) (cfg' : CacheConfig)
    (hc : lookupA t.cache_configs m' = some cfg') :
    (clearOneModel t m' none).redis_client =
      t.redis_client.map (fun r =>
        r.filter fun kv => !(globMatch kv.1 cfg'.redis_key_pref none)) := by
  unfold clearOneModel
  rw [hc]
  dsimp only
  cases hm : lookupA t.memory_caches m' <;> dsimp only <;>
    cases hr : t.redis_client <;> simp [hr]

/-! ## Digest shape and the impossibility of global model-separation
(claim C6 machinery) -/

theorem toHex8_length (x : Nat) : (toHex8 x).length = 8 := by
  simp [toHex8]

theorem processBlock_length (state block : List Nat) :
    (processBlock state block).length = 8 := rfl

theorem foldl_processBlock_length :
    ∀ (blocks : List (List Nat)) (state : List Nat), state.length = 8 →
      (blocks.foldl processBlock state).length = 8 := by
  intro blocks
  induction blocks with
  | nil => intro s h; exact h
  | cons b rest ih =>
      intro s h
      rw [List.foldl_cons]
      exact ih _ (processBlock_length s b)

theorem sha256Words_length (msg : List Nat) : (sha256Words msg).length = 8 :=
  foldl_processBlock_length _ _ (by simp [sha256H0, first64Primes])

theorem sha256hex_length (msg : List Nat) : (sha256hex msg).length = 64 := by
  have h8 := sha256Words_length msg
  unfold sha256hex
  show (String.mk ((sha256Words msg).map toHex8).flatten).length = 64
  have : ∀ (ws : List Nat), ((ws.map toHex8).flatten).length = 8 * ws.length := by
    intro ws
    induction ws with
    | nil => rfl
    | cons w rest ih =>
        simp [List.flatten, toHex8_length, ih]
        omega
  show ((sha256Words msg).map toHex8).flatten.length = 64
  rw [this, h8]

/-- Claim C6, shape part: the key deriver always yields a 64-character
digest. -/
theorem generate_text_hash_length (text model_name : String) :
    (_generate_text_hash text model_name).length = 64 :=
  sha256hex_length _

theorem w32_lt (n : Nat) : w32 n < 4294967296 :=
  Nat.mod_lt _ (by decide)

theorem processBlock_bounded (state block : List Nat) :
    ∀ w ∈ processBlock state block, w < 4294967296 := by
  intro w hw
  simp only [processBlock, List.mem_cons, List.not_mem_nil, or_false] at hw
  rcases hw with h | h | h | h | h | h | h | h <;> rw [h] <;> exact w32_lt _

theorem foldl_processBlock_bounded :
    ∀ (blocks : List (List Nat)) (state : List Nat),
      (∀ w ∈ state, w < 4294967296) →
      ∀ w ∈ blocks.foldl processBlock state, w < 4294967296 := by
  intro blocks
  induction blocks with
  | nil => intro s h; exact h
  | cons b rest ih =>
      intro s h
      rw [List.foldl_cons]
      exact ih _ (processBlock_bounded s b)

theorem sha256Words_bounded (msg : List Nat) :
    ∀ w ∈ sha256Words msg, w < 4294967296 := by
  have hH0 : ∀ w ∈ sha256H0, w < 4294967296 := by
    intro w hw
    simp only [sha256H0, List.mem_map] at hw
    obtain ⟨p, _, hp⟩ := hw
    rw [← hp]
    exact w32_lt _
  exact foldl_processBlock_bounded _ _ hH0

/-- Little-endian base-2^32 value of a word list. -/
def wordsVal : List Nat → Nat
  | [] => 0
  | w :: rest => w + 4294967296 * wordsVal rest

theorem wordsVal_lt : ∀ (l : List Nat), (∀ w ∈ l, w < 4294967296) →
    wordsVal l < 4294967296 ^ l.length := by
  intro l
  induction l with
  | nil => intro _; simp [wordsVal]
  | cons w rest ih =>
      intro hb
      have hw : w < 4294967296 := hb w (by simp)
      have hr : wordsVal rest < 4294967296 ^ rest.length :=
        ih (fun x hx => hb x (by simp [hx]))
      simp only [wordsVal, List.length_cons, pow_succ]
      calc w + 4294967296 * wordsVal rest
          < 4294967296 + 4294967296 * wordsVal rest := by omega
        _ ≤ 4294967296 + 4294967296 * (4294967296 ^ rest.length - 1) := by
            have := Nat.mul_le_mul_left 4294967296 (Nat.le_sub_one_of_lt hr)
            omega
        _ = 4294967296 * 4294967296 ^ rest.length := by
            have hpos : 0 < 4294967296 ^ rest.length := Nat.pos_pow_of_pos _ (by decide)
            omega
        _ = 4294967296 ^ rest.length * 4294967296 := by ring

theorem wordsVal_inj : ∀ (l1 l2 : List Nat), l1.length = l2.length →
    (∀ w ∈ l1, w < 4294967296) → (∀ w ∈ l2, w < 4294967296) →
    wordsVal l1 = wordsVal l2 → l1 = l2 := by
  intro l1
  induction l1 with
  | nil =>
      intro l2 hlen _ _ _
      cases l2 with
      | nil => rfl
      | cons _ _ => cases hlen
  | cons w1 r1 ih =>
      intro l2 hlen hb1 hb2 hv
      cases l2 with
      | nil => cases hlen
      | cons w2 r2 =>
          have hw1 : w1 < 4294967296 := hb1 w1 (by simp)
          have hw2 : w2 < 4294967296 := hb2 w2 (by simp)
          simp only [wordsVal] at hv
          have hw : w1 = w2 ∧ wordsVal r1 = wordsVal r2 := by omega
          have hr : r1 = r2 := by
            refine ih r2 ?_ (fun x hx => hb1 x (by simp [hx]))
              (fun x hx => hb2 x (by simp [hx])) hw.2
            simpa using hlen
          rw [hw.1, hr]

/-- Claim C6, impossibility part: no function emitting 64-hex-character
(equivalently, 8-word) digests can separate every pair of distinct model
names for a fixed text — there are more model names than digests. -/
theorem generate_text_hash_not_injective (t : String) :
    ¬ (∀ m1 m2 : String, m1 ≠ m2 →
        _generate_text_hash t m1 ≠ _generate_text_hash t m2) := by
  intro hinj
  have hbound : ∀ (n : Nat),
      wordsVal (sha256Words (strBytes (String.mk (List.replicate n 'a') ++ ":" ++ t))) <
        2 ^ 256 := by
    intro n
    have h1 := wordsVal_lt _ (sha256Words_bounded
      (strBytes (String.mk (List.replicate n 'a') ++ ":" ++ t)))
    rw [sha256Words_length] at h1
    have : (4294967296 : Nat) ^ 8 = 2 ^ 256 := by norm_num
    rw [this] at h1
    exact h1
  set F : Fin (2 ^ 256 + 1) → Fin (2 ^ 256) := fun i =>
    ⟨wordsVal (sha256Words (strBytes (String.mk (List.replicate i.val 'a') ++ ":" ++ t))),
     hbound i.val⟩ with hF
  have hcard : Fintype.card (Fin (2 ^ 256)) < Fintype.card (Fin (2 ^ 256 + 1)) := by
    simp only [Fintype.card_fin]
    exact Nat.lt_succ_self _
  obtain ⟨i, j, hne, heq⟩ := Fintype.exists_ne_map_eq_of_card_lt F hcard
  have hval : wordsVal (sha256Words (strBytes (String.mk (List.replicate i.val 'a') ++ ":" ++ t))) =
      wordsVal (sha256Words (strBytes (String.mk (List.replicate j.val 'a') ++ ":" ++ t))) := by
    have := congrArg Fin.val heq
    simpa [hF] using this
  have hwords : sha256Words (strBytes (String.mk (List.replicate i.val 'a') ++ ":" ++ t)) =
      sha256Words (strBytes (String.mk (List.replicate j.val 'a') ++ ":" ++ t)) := by
    refine wordsVal_inj _ _ ?_ (sha256Words_bounded _) (sha256Words_bounded _) hval
    rw [sha256Words_length, sha256Words_length]
  have hmne : String.mk (List.replicate i.val 'a') ≠ String.mk (List.replicate j.val 'a') := by
    intro hcon
    apply hne
    have hdata : List.replicate i.val 'a' = List.replicate j.val 'a' := by
      injection hcon
    have hlen := congrArg List.length hdata
    simp only [List.length_replicate] at hlen
    exact Fin.ext hlen
  apply hinj _ _ hmne
  unfold _generate_text_hash sha256hex
  rw [hwords]

/-! ## Preservation corollaries of successful calls -/

theorem get_preserves_configs (s : ServiceState) (items : List TextItem) (m : String)
    (now rt : ℚ) (out : List CachedEmbedding × List TextItem × ServiceState)
    (h : get_cached_embeddings s items m now rt = .ok out) :
    out.2.2.cache_configs = s.cache_configs := by
  obtain ⟨⟨cfg, hcfg⟩, hstats, htimes⟩ := get_ok_preconditions s items m now rt out h
  obtain ⟨hits, s', hrun, _, hc1, _⟩ :=
    get_cached_embeddings_spec s items m now rt cfg hcfg hstats htimes
  rw [hrun] at h
  cases h
  exact hc1

theorem get_preserves_memfst (s : ServiceState) (items : List TextItem) (m : String)
    (now rt : ℚ) (out : List CachedEmbedding × List TextItem × ServiceState)
    (h : get_cached_embeddings s items m now rt = .ok out) :
    out.2.2.memory_caches.map Prod.fst = s.memory_caches.map Prod.fst := by
  obtain ⟨⟨cfg, hcfg⟩, hstats, htimes⟩ := get_ok_preconditions s items m now rt out h
  obtain ⟨hits, s', hrun, _, _, _, hc3, _⟩ :=
    get_cached_embeddings_spec s items m now rt cfg hcfg hstats htimes
  rw [hrun] at h
  cases h
  exact hc3

theorem store_ok_mock (s : ServiceState) (items : List TextItem)
    (results : List EmbeddingResult) (m : String) (now : ℚ) (s' : ServiceState)
    (h : store_embeddings s items results m now = .ok s') :
    (lookupA s.cache_configs "mock").isSome := by
  unfold store_embeddings getConfigOrMock at h
  cases hl : lookupA s.cache_configs "mock" with
  | none => rw [hl] at h; cases h
  | some d => simp

theorem store_preserves_configs (s : ServiceState) (items : List TextItem)
    (results : List EmbeddingResult) (m : String) (now : ℚ) (s' : ServiceState)
    (h : store_embeddings s items results m now = .ok s') :
    s'.cache_configs = s.cache_configs := by
  obtain ⟨s'', hok, h1, _⟩ :=
    store_embeddings_spec s items results m now (store_ok_mock s items results m now s' h)
  rw [hok] at h
  cases h
  exact h1

theorem store_preserves_memfst (s : ServiceState) (items : List TextItem)
    (results : List EmbeddingResult) (m : String) (now : ℚ) (s' : ServiceState)
    (h : store_embeddings s items results m now = .ok s') :
    s'.memory_caches.map Prod.fst = s.memory_caches.map Prod.fst := by
  obtain ⟨s'', hok, _, _, _, h4, _⟩ :=
    store_embeddings_spec s items results m now (store_ok_mock s items results m now s' h)
  rw [hok] at h
  cases h
  exact h4

/-! ## Fold clearing (claim C9, no-model branch) -/

/-- Clearing any model maps its memory value through "drop the entries" when
a config exists, and otherwise leaves the state alone. -/
theorem clearOne_mem_self_opt (t : ServiceState) (m' : String) :
    lookupA (clearOneModel t m' none).memory_caches m' = lookupA t.memory_caches m' ∨
    lookupA (clearOneModel t m' none).memory_caches m' =
      (lookupA t.memory_caches m').map (fun mc => { mc with entries := [] }) := by
  cases hc : lookupA t.cache_configs m' with
  | none =>
      left
      unfold clearOneModel
      rw [hc]
  | some cfg' => exact Or.inr (clearOne_mem_self t m' cfg' hc)

/-- One remote step of clearing: remote some-ness survives and deleted keys
stay deleted. -/
theorem clearOne_redis_step (t : ServiceState) (m0 : String) (r : RedisStore)
    (hr : t.redis_client = some r) :
    ∃ rf, (clearOneModel t m0 none).redis_client = some rf ∧
      (∀ key, lookupA r key = none → lookupA rf key = none) := by
  cases hc : lookupA t.cache_configs m0 with
  | none =>
      refine ⟨r, ?_, fun key hk => hk⟩
      unfold clearOneModel
      rw [hc]
      exact hr
  | some cfg0 =>
      refine ⟨r.filter fun kv => !(globMatch kv.1 cfg0.redis_key_pref none), ?_, ?_⟩
      · rw [clearOne_redis_self t m0 cfg0 hc, hr]
        rfl
      · intro key hk
        exact lookupA_filter_none r _ key hk

theorem clearFold_keep_cleared :
    ∀ (models : List String) (t : ServiceState) (m' : String) (v : MemCache),
      lookupA t.memory_caches m' = some v → v.entries = [] →
      lookupA ((models.foldl (fun acc mm => clearOneModel acc mm none) t)).memory_caches m' =
        some v := by
  intro models
  induction models with
  | nil => intro t m' v hv _; exact hv
  | cons m0 rest ih =>
      intro t m' v hv hemp
      rw [List.foldl_cons]
      by_cases hm : m' = m0
      · subst hm
        rcases clearOne_mem_self_opt t m' with hsame | hmap
        · exact ih _ _ _ (hsame.trans hv) hemp
        · refine ih _ _ _ ?_ hemp
          rw [hmap, hv]
          show some { v with entries := [] } = some v
          obtain ⟨vt, ve⟩ := v
          simp only at hemp
          subst hemp
          rfl
      · exact ih _ _ _ ((clearOne_mem_other t m0 m' none hm).trans hv) hemp

theorem clearFold_redis_mono :
    ∀ (models : List String) (t : ServiceState) (r : RedisStore),
      t.redis_client = some r →
      ∃ rf, ((models.foldl (fun acc mm => clearOneModel acc mm none) t)).redis_client =
          some rf ∧ ∀ key, lookupA r key = none → lookupA rf key = none := by
  intro models
  induction models with
  | nil => intro t r hr; exact ⟨r, hr, fun _ hk => hk⟩
  | cons m0 rest ih =>
      intro t r hr
      rw [List.foldl_cons]
      obtain ⟨r1, hr1, hkeep1⟩ := clearOne_redis_step t m0 r hr
      obtain ⟨rf, hrf, hkeep2⟩ := ih _ _ hr1
      exact ⟨rf, hrf, fun key hk => hkeep2 key (hkeep1 key hk)⟩

/-- After folding a clear over a model list containing `m'`, the memory tier
of `m'` holds its old cache emptied (when it had one) and the remote tier
holds none of `m'`'s keys. -/
theorem clearFold_clears :
    ∀ (models : List String) (t : ServiceState) (m' : String) (cfg' : CacheConfig),
      lookupA t.cache_configs m' = some cfg' → m' ∈ models →
      (∀ mc, lookupA t.memory_caches m' = some mc →
        lookupA ((models.foldl (fun acc mm => clearOneModel acc mm none) t)).memory_caches m' =
          some { mc with entries := [] }) ∧
      (∀ r, t.redis_client = some r →
        ∃ rf, ((models.foldl (fun acc mm => clearOneModel acc mm none) t)).redis_client =
            some rf ∧ ∀ x, lookupA rf (cfg'.redis_key_pref ++ x) = none) := by
  intro models
  induction models with
  | nil =>
      intro t m' cfg' _ hmem
      cases hmem
  | cons m0 rest ih =>
      intro t m' cfg' hc hmem
      by_cases hm : m' = m0
      · subst hm
        constructor
        · intro mc hmc
          rw [List.foldl_cons]
          refine clearFold_keep_cleared rest _ m' { mc with entries := [] } ?_ rfl
          rw [clearOne_mem_self t m' cfg' hc, hmc]
          rfl
        · intro r hr
          rw [List.foldl_cons]
          have hdead : ∀ x, lookupA (r.filter fun kv =>
              !(globMatch kv.1 cfg'.redis_key_pref none)) (cfg'.redis_key_pref ++ x) = none := by
            intro x
            apply lookupA_filter_out
            intro v
            have : globMatch (cfg'.redis_key_pref ++ x) cfg'.redis_key_pref none = true := by
              unfold globMatch
              show cfg'.redis_key_pref.data.isPrefixOf
                (cfg'.redis_key_pref.data ++ x.data) = true
              exact List.isPrefixOf_iff_prefix.mpr (List.prefix_append _ _)
            simp [this]
          have hstep : (clearOneModel t m' none).redis_client =
              some (r.filter fun kv => !(globMatch kv.1 cfg'.redis_key_pref none)) := by
            rw [clearOne_redis_self t m' cfg' hc, hr]
            rfl
          obtain ⟨rf, hrf, hkeep⟩ := clearFold_redis_mono rest _ _ hstep
          exact ⟨rf, hrf, fun x => hkeep _ (hdead x)⟩
      · have hin : m' ∈ rest := by
          cases hmem with
          | head => exact absurd rfl hm
          | tail _ h => exact h
        have hc1 : lookupA (clearOneModel t m0 none).cache_configs m' = some cfg' := by
          rw [clearOne_configs]
          exact hc
        obtain ⟨ihmem, ihred⟩ := ih (clearOneModel t m0 none) m' cfg' hc1 hin
        constructor
        · intro mc hmc
          rw [List.foldl_cons]
          refine ihmem mc ?_
          rw [clearOne_mem_other t m0 m' none hm]
          exact hmc
        · intro r hr
          rw [List.foldl_cons]
          obtain ⟨r1, hr1, _⟩ := clearOne_redis_step t m0 r hr
          exact ihred r1 hr1

/-! ## All-miss behavior without tiers (claim C10 machinery) -/

theorem hitP_no_tier (s : ServiceState) (cfg : CacheConfig) (m h : String) (now : ℚ)
    (hred : s.redis_client = none) (hmem : lookupA s.memory_caches m = none) :
    hitP s cfg m h now = false := by
  unfold hitP probeCache memProbe
  rw [hmem, hred]
  dsimp only
  repeat' split
  all_goals simp_all

/-! ## The claims -/

/-- C1: for every batch looked up under one model (with its config, stats and
timing entries resolved), `get_cached_embeddings` returns exactly K hits and
N − K misses, where K counts the items whose (text, model) hash is stored,
unexpired and decodable in a tier the strategy consults (`hitP` over the
initial state); the misses are exactly the non-cached items of the batch in
their original order (no item duplicated, none dropped), and the hits number
exactly the cached items. -/
theorem claim_C1 (s : ServiceState) (items : List TextItem) (m : String)
    (now rt : ℚ) (cfg : CacheConfig)
    (hcfg : getConfigOrMock s m = .ok cfg)
    (hstats : (lookupA s.cache_stats m).isSome)
    (htimes : (lookupA s.request_times m).isSome) :
    ∃ hits misses s',
      get_cached_embeddings s items m now rt = .ok (hits, misses, s') ∧
      misses = items.filter (fun it => !(hitP s cfg m (_generate_text_hash it.text m) now)) ∧
      hits.length =
        (items.filter fun it => hitP s cfg m (_generate_text_hash it.text m) now).length ∧
      hits.length + misses.length = items.length ∧
      misses.length = items.length - hits.length := by
  obtain ⟨hits, s', hrun, hlen, _⟩ :=
    get_cached_embeddings_spec s items m now rt cfg hcfg hstats htimes
  have hpart := length_filter_partition
    (fun it => hitP s cfg m (_generate_text_hash it.text m) now) items
  refine ⟨hits, _, s', hrun, rfl, hlen, ?_, ?_⟩
  · rw [hlen]
    simpa using hpart
  · rw [hlen]
    omega

theorem claim_C1_witness :
    ∃ hits misses s',
      get_cached_embeddings (initService true [] 0) [⟨1, "a"⟩, ⟨2, "b"⟩] "mock" 1 1 =
        .ok (hits, misses, s') ∧
      hits.length + misses.length = 2 := by
  obtain ⟨hits, misses, s', hrun, _, _, hsum, _⟩ :=
    claim_C1 (initService true [] 0) [⟨1, "a"⟩, ⟨2, "b"⟩] "mock" 1 1 mockConfig
      rfl (by decide) (by decide)
  exact ⟨hits, misses, s', hrun, hsum⟩

/-- C2: in every reachable state (any sequence of successful lookup, store
and invalidate calls from a fresh service), every model's statistics satisfy
cache_hits + cache_misses = total_requests and hit_rate = cache_hits /
total_requests (0 when total_requests = 0); moreover one lookup call
increments the model's total_requests by exactly the number of items
processed (one per item). -/
theorem claim_C2 :
    (∀ s, Reachable s → StatsInv s) ∧
    (∀ s (items : List TextItem) m (now rt : ℚ) out st0 st',
      get_cached_embeddings s items m now rt = .ok out →
      lookupA s.cache_stats m = some st0 →
      lookupA out.2.2.cache_stats m = some st' →
      st'.total_requests = st0.total_requests + items.length) := by
  constructor
  · exact statsInv_reachable
  · intro s items m now rt out st0 st' h hst0 hst'
    obtain ⟨⟨cfg, hcfg⟩, hstats, htimes⟩ := get_ok_preconditions s items m now rt out h
    obtain ⟨hits, s', hrun, hlen, hc1, hc2, hc3, hc4, hc5, hc6, hc7⟩ :=
      get_cached_embeddings_spec s items m now rt cfg hcfg hstats htimes
    rw [hrun] at h
    cases h
    obtain ⟨avg, hfin⟩ := hc7 st0 hst0
    rw [hfin] at hst'
    injection hst' with he
    rw [← he]

theorem claim_C2_witness : StatsInv (initService true [] 0) :=
  claim_C2.1 _ (Reachable.init true [] 0)

/-- C3: for every compression mode and every `CachedEmbedding`, decoding the
encoding under the same mode returns the value unchanged, field for field
(the rational model of the float vector is compared exactly). -/
theorem claim_C3 (compression : CompressionType) (e : CachedEmbedding) :
    _decompress_embedding (_compress_embedding e compression) compression = some e := by
  cases compression <;>
    simp [_compress_embedding, _decompress_embedding, fromDict_asdict]

/-- C7: storing under a MEMORY_ONLY config into an existing memory tier with
per-tier ttl T makes a later lookup of the same (text, model) a hit exactly
when it happens strictly before the store time plus T — and then it returns
the stored embedding; at or after expiry it is a miss. -/
theorem claim_C7 (s : ServiceState) (m text : String) (e : CachedEmbedding)
    (cfg : CacheConfig) (mc : MemCache) (t0 t : ℚ)
    (hstrat : cfg.strategy = .MEMORY_ONLY)
    (hmc : lookupA s.memory_caches m = some mc) :
    ((_get_from_cache
        (_store_in_cache s (_generate_text_hash text m) e m cfg t0)
        (_generate_text_hash text m) m cfg t).1 =
      (if t < t0 + (mc.ttl : ℚ) then some e else none)) ∧
    (((_get_from_cache
        (_store_in_cache s (_generate_text_hash text m) e m cfg t0)
        (_generate_text_hash text m) m cfg t).1).isSome = true ↔
      t < t0 + (mc.ttl : ℚ)) := by
  have hstore : _store_in_cache s (_generate_text_hash text m) e m cfg t0 =
      { s with memory_caches :=
          insertA s.memory_caches m (ttlSet mc (_generate_text_hash text m) e t0) } := by
    unfold _store_in_cache
    rw [hstrat]
    dsimp only
    rw [if_pos (Or.inl rfl), hmc]
    dsimp only
    rw [if_neg (by decide)]
  have hfst : (_get_from_cache
      (_store_in_cache s (_generate_text_hash text m) e m cfg t0)
      (_generate_text_hash text m) m cfg t).1 =
      (if t < t0 + (mc.ttl : ℚ) then some e else none) := by
    rw [hstore, get_from_cache_fst]
    unfold probeCache memProbe
    rw [hstrat]
    dsimp only
    rw [if_pos (Or.inl rfl), lookupA_insertA_self]
    unfold ttlGet ttlSet
    dsimp only
    rw [lookupA_insertA_self]
    by_cases ht : t < t0 + (mc.ttl : ℚ)
    · simp [ht]
    · simp [ht]
  refine ⟨hfst, ?_⟩
  rw [hfst]
  by_cases ht : t < t0 + (mc.ttl : ℚ) <;> simp [ht]

theorem claim_C7_witness :
    ((_get_from_cache
        (_store_in_cache (initService true [] 0) (_generate_text_hash "t" "mock")
          ⟨"h", "mock", [1], 1, 1, 5, 1, 5, "none"⟩ "mock" mockConfig 5)
        (_generate_text_hash "t" "mock") "mock" mockConfig 3604).1).isSome = true ↔
      (3604 : ℚ) < 5 + ((3600 : Int) : ℚ) :=
  (claim_C7 (initService true [] 0) "mock" "t" ⟨"h", "mock", [1], 1, 1, 5, 1, 5, "none"⟩
    mockConfig ⟨3600, []⟩ 5 3604 rfl (by decide)).2

/-- C4: if the startup reachability probe fails, every remote-dependent
config (REDIS_ONLY, HYBRID, PERSISTENT) is rewritten to MEMORY_ONLY and no
later successful call ever changes the registry again; lookups and stores
never raise for a model whose config/stats/timing records resolve; and a
HYBRID-configured model in a remote-less state behaves identically, output
for output and tier for tier, to the same model downgraded to MEMORY_ONLY. -/
theorem claim_C4 :
    (∀ (r0 : RedisStore) (t0 : ℚ) m cfg0, lookupA initialConfigs m = some cfg0 →
      (cfg0.strategy = .REDIS_ONLY ∨ cfg0.strategy = .HYBRID ∨
        cfg0.strategy = .PERSISTENT) →
      lookupA (initService false r0 t0).cache_configs m =
        some { cfg0 with strategy := .MEMORY_ONLY }) ∧
    (∀ (r0 : RedisStore) (t0 : ℚ) m cfg,
      lookupA (initService false r0 t0).cache_configs m = some cfg →
      cfg.strategy = .MEMORY_ONLY) ∧
    (∀ s (items : List TextItem) m (now rt : ℚ) out,
      get_cached_embeddings s items m now rt = .ok out →
      out.2.2.cache_configs = s.cache_configs) ∧
    (∀ s (items : List TextItem) (results : List EmbeddingResult) m (now : ℚ) s',
      store_embeddings s items results m now = .ok s' →
      s'.cache_configs = s.cache_configs) ∧
    (∀ s mn tp s', invalidate_cache s mn tp = .ok s' →
      s'.cache_configs = s.cache_configs) ∧
    (∀ s (items : List TextItem) m (now rt : ℚ) cfg,
      getConfigOrMock s m = .ok cfg →
      (lookupA s.cache_stats m).isSome → (lookupA s.request_times m).isSome →
      ∃ out, get_cached_embeddings s items m now rt = .ok out) ∧
    (∀ s (items : List TextItem) (results : List EmbeddingResult) m (now : ℚ),
      (lookupA s.cache_configs "mock").isSome →
      ∃ s', store_embeddings s items results m now = .ok s') ∧
    (∀ s m cfg (items : List TextItem) (now rt : ℚ),
      s.redis_client = none → lookupA s.cache_configs m = some cfg →
      cfg.strategy = .HYBRID → (lookupA s.cache_configs "mock").isSome →
      get_cached_embeddings
        (reCfg (insertA s.cache_configs m { cfg with strategy := .MEMORY_ONLY }) s)
        items m now rt =
      (get_cached_embeddings s items m now rt).map
        (fun out => (out.1, out.2.1,
          reCfg (insertA s.cache_configs m { cfg with strategy := .MEMORY_ONLY })
            out.2.2))) := by
  refine ⟨init_downgrade, init_downgrade_all, get_preserves_configs,
    store_preserves_configs, ?_, ?_, ?_, ?_⟩
  · intro s mn tp s' h
    exact (invalidate_cache_frame s mn tp s' h).1
  · intro s items m now rt cfg hcfg hstats htimes
    obtain ⟨hits, s', hrun, _⟩ :=
      get_cached_embeddings_spec s items m now rt cfg hcfg hstats htimes
    exact ⟨_, hrun⟩
  · intro s items results m now hmock
    obtain ⟨s', hrun, _⟩ := store_embeddings_spec s items results m now hmock
    exact ⟨s', hrun⟩
  · intro s m cfg items now rt hred hcfg hH hmock
    exact get_hybrid_memory_only s m cfg items now rt hred hcfg hH hmock

theorem claim_C4_witness :
    lookupA (initService false [] 0).cache_configs "kobert" =
      some { kobertConfig with strategy := .MEMORY_ONLY } :=
  claim_C4.1 [] 0 "kobert" kobertConfig (by decide) (by decide)

/-- C8: when the remote tier holds a live payload at a probed key but the
payload cannot be decoded under the config's compression mode, `_get_from_cache`
treats the probe as a miss and leaves the state untouched; and the enclosing
batch lookup still completes without raising for any model whose records
resolve. -/
theorem claim_C8 (s : ServiceState) (m text_hash : String) (cfg : CacheConfig)
    (r : RedisStore) (payload : Payload) (now : ℚ)
    (hred : s.redis_client = some r)
    (hmem : memProbe s.memory_caches m text_hash now = none)
    (hstrat : cfg.strategy = .REDIS_ONLY ∨ cfg.strategy = .HYBRID ∨
      cfg.strategy = .PERSISTENT)
    (hget : redisGet r (cfg.redis_key_pref ++ text_hash) now = some payload)
    (hdec : _decompress_embedding payload cfg.compression = none) :
    _get_from_cache s text_hash m cfg now = (none, s) ∧
    (∀ (items : List TextItem) m2 (now2 rt : ℚ) cfg2,
      getConfigOrMock s m2 = .ok cfg2 →
      (lookupA s.cache_stats m2).isSome → (lookupA s.request_times m2).isSome →
      ∃ out, get_cached_embeddings s items m2 now2 rt = .ok out) := by
  have hfst : (_get_from_cache s text_hash m cfg now).1 = none := by
    rw [get_from_cache_fst]
    unfold probeCache
    have hmemcase : (if cfg.strategy = .MEMORY_ONLY ∨ cfg.strategy = .HYBRID then
        memProbe s.memory_caches m text_hash now else none) = none := by
      split
      · exact hmem
      · rfl
    rw [hmemcase]
    dsimp only
    rw [if_pos hstrat, hred]
    dsimp only
    rw [hget]
    dsimp only
    exact hdec
  refine ⟨Prod.ext hfst (get_from_cache_miss_state s text_hash m cfg now hfst), ?_⟩
  intro items m2 now2 rt cfg2 hcfg2 hstats2 htimes2
  obtain ⟨hits, s', hrun, _⟩ :=
    get_cached_embeddings_spec s items m2 now2 rt cfg2 hcfg2 hstats2 htimes2
  exact ⟨_, hrun⟩

theorem claim_C8_witness :
    _get_from_cache
      (initService true [("embed:onnx:kobert:deadbeef", ⟨100, .rawBytes 0⟩)] 0)
      "deadbeef" "onnx_kobert" onnxKobertConfig 1 =
    (none, initService true [("embed:onnx:kobert:deadbeef", ⟨100, .rawBytes 0⟩)] 0) :=
  (claim_C8 (initService true [("embed:onnx:kobert:deadbeef", ⟨100, .rawBytes 0⟩)] 0)
    "onnx_kobert" "deadbeef" onnxKobertConfig
    [("embed:onnx:kobert:deadbeef", ⟨100, .rawBytes 0⟩)] (.rawBytes 0) 1
    rfl (by decide) (Or.inr (Or.inr rfl)) (by decide) rfl).1

/-- C10: a memory tier is created at startup exactly for the models whose
configured strategy is MEMORY_ONLY or HYBRID; no successful call ever adds or
removes a tier; and for a model with no memory tier while the remote client
is gone (e.g. a PERSISTENT model after the startup downgrade), every probe
misses and every store writes to no tier at all — so a batch lookup returns
all items as misses and a batch store returns the state unchanged. -/
theorem claim_C10 :
    (∀ (avail : Bool) (r0 : RedisStore) (t0 : ℚ) m cfg,
      lookupA initialConfigs m = some cfg →
      ((lookupA (initService avail r0 t0).memory_caches m).isSome ↔
        (cfg.strategy = .MEMORY_ONLY ∨ cfg.strategy = .HYBRID))) ∧
    (∀ s (items : List TextItem) m (now rt : ℚ) out,
      get_cached_embeddings s items m now rt = .ok out →
      out.2.2.memory_caches.map Prod.fst = s.memory_caches.map Prod.fst) ∧
    (∀ s (items : List TextItem) (results : List EmbeddingResult) m (now : ℚ) s',
      store_embeddings s items results m now = .ok s' →
      s'.memory_caches.map Prod.fst = s.memory_caches.map Prod.fst) ∧
    (∀ s mn tp s', invalidate_cache s mn tp = .ok s' →
      s'.memory_caches.map Prod.fst = s.memory_caches.map Prod.fst) ∧
    (∀ s (text_hash m : String) cfg (e : CachedEmbedding) (now : ℚ),
      s.redis_client = none → lookupA s.memory_caches m = none →
      _get_from_cache s text_hash m cfg now = (none, s) ∧
      _store_in_cache s text_hash e m cfg now = s) ∧
    (∀ s (items : List TextItem) m (now rt : ℚ) cfg,
      getConfigOrMock s m = .ok cfg →
      (lookupA s.cache_stats m).isSome → (lookupA s.request_times m).isSome →
      s.redis_client = none → lookupA s.memory_caches m = none →
      ∃ s', get_cached_embeddings s items m now rt = .ok ([], items, s')) ∧
    (∀ s (items : List TextItem) (results : List EmbeddingResult) m (now : ℚ),
      (lookupA s.cache_configs "mock").isSome →
      s.redis_client = none → lookupA s.memory_caches m = none →
      store_embeddings s items results m now = .ok s) := by
  refine ⟨init_memory_tier_iff, get_preserves_memfst, store_preserves_memfst, ?_, ?_, ?_,
    store_embeddings_no_tier⟩
  · intro s mn tp s' h
    exact (invalidate_cache_frame s mn tp s' h).2.2.2.1
  · intro s text_hash m cfg e now hred hmem
    exact ⟨get_from_cache_no_tier s text_hash m cfg now hred hmem,
      store_in_cache_no_tier s text_hash e m cfg now hred hmem⟩
  · intro s items m now rt cfg hcfg hstats htimes hred hmem
    obtain ⟨hits, s', hrun, hlen, _⟩ :=
      get_cached_embeddings_spec s items m now rt cfg hcfg hstats htimes
    have hfalse : ∀ it : TextItem,
        hitP s cfg m (_generate_text_hash it.text m) now = false := fun it =>
      hitP_no_tier s cfg m _ now hred hmem
    have hmissall : (items.filter fun it =>
        !(hitP s cfg m (_generate_text_hash it.text m) now)) = items := by
      apply List.filter_eq_self.mpr
      intro a _
      rw [hfalse a]
      rfl
    have hhitnone : (items.filter fun it =>
        hitP s cfg m (_generate_text_hash it.text m) now) = [] := by
      apply List.filter_eq_nil_iff.mpr
      intro a _
      rw [hfalse a]
      simp
    rw [hhitnone] at hlen
    have hnil : hits = [] := List.eq_nil_of_length_eq_zero (by simpa using hlen)
    rw [hmissall, hnil] at hrun
    exact ⟨s', hrun⟩

theorem claim_C10_witness :
    _get_from_cache (initService false [] 0) "somehash" "onnx_kobert"
      onnxKobertConfig 0 = (none, initService false [] 0) ∧
    _store_in_cache (initService false [] 0) "somehash"
      ⟨"somehash", "onnx_kobert", [1], 1, 1, 0, 1, 0, "gzip_pickle"⟩ "onnx_kobert"
      onnxKobertConfig 0 = initService false [] 0 :=
  claim_C10.2.2.2.2.1 (initService false [] 0) "somehash" "onnx_kobert"
    onnxKobertConfig ⟨"somehash", "onnx_kobert", [1], 1, 1, 0, 1, 0, "gzip_pickle"⟩ 0
    rfl (by decide)

/-! ## Unknown-model behavior (claim C5 machinery) -/

theorem statsBumpHit_none (t : ServiceState) (m : String)
    (h : lookupA t.cache_stats m = none) : statsBumpHit t m = none := by
  unfold statsBumpHit
  rw [h]

theorem statsBumpMiss_none (t : ServiceState) (m : String)
    (h : lookupA t.cache_stats m = none) : statsBumpMiss t m = none := by
  unfold statsBumpMiss
  rw [h]

theorem bumpShared_stats (t : ServiceState) (m th : String) (now : ℚ) :
    (bumpShared t m th now).cache_stats = t.cache_stats := rfl

/-- A nonempty lookup for a model with no stats record dies with KeyError at
the first item, whichever way the probe goes. -/
theorem lookupLoop_stats_none (cfg : CacheConfig) (m : String) (now : ℚ)
    (item : TextItem) (rest : List TextItem) (s : ServiceState)
    (hstats : lookupA s.cache_stats m = none) :
    lookupLoop cfg m now (item :: rest) s = .error (.keyError m) := by
  unfold lookupLoop
  dsimp only
  have hframe := (get_from_cache_frame s (_generate_text_hash item.text m) m cfg now).2.2.1
  cases hr : (_get_from_cache s (_generate_text_hash item.text m) m cfg now).1 with
  | some cached =>
      dsimp only
      by_cases hc : cfg.strategy = CacheStrategy.MEMORY_ONLY ∨ cfg.strategy = CacheStrategy.HYBRID
      · rw [if_pos hc, statsBumpHit_none _ m (by rw [bumpShared_stats, hframe, hstats])]
      · rw [if_neg hc, statsBumpHit_none _ m (by rw [hframe, hstats])]
  | none =>
      dsimp only
      rw [statsBumpMiss_none _ m (by rw [hframe, hstats])]

/-- C5 counterexample: not every cache operation on an unknown model
completes. On a fresh service, a lookup for an unregistered model raises
KeyError (the stats/timing dicts have no entry for it), and an invalidate
naming an unregistered model raises ValueError. -/
theorem claim_C5_counterexample :
    get_cached_embeddings (initService true [] 0) [] "nope" 1 1 =
      .error (.keyError "nope") ∧
    invalidate_cache (initService true [] 0) (some "nope") none =
      .error (.valueError "nope") := ⟨rfl, rfl⟩

/-- C5 (amended): of the three operations called with a model name absent
from the registry, only `store_embeddings` falls back to the "mock" config
and completes; `get_cached_embeddings` raises KeyError whenever the unknown
model has no stats and timing records; `invalidate_cache` with a truthy
(nonempty) unknown model name raises ValueError by design, while the falsy
empty-string name is treated exactly like an omitted one (clear all models,
no exception). -/
theorem claim_C5 :
    (∀ (s : ServiceState) (items : List TextItem) (results : List EmbeddingResult)
        (m : String) (now : ℚ) (mockCfg : CacheConfig),
      lookupA s.cache_configs m = none →
      lookupA s.cache_configs "mock" = some mockCfg →
      getConfigOrMock s m = .ok mockCfg ∧
        ∃ s', store_embeddings s items results m now = .ok s') ∧
    (∀ (s : ServiceState) (items : List TextItem) (m : String) (now rt : ℚ),
      (lookupA s.cache_configs "mock").isSome →
      lookupA s.cache_stats m = none →
      lookupA s.request_times m = none →
      get_cached_embeddings s items m now rt = .error (.keyError m)) ∧
    (∀ (s : ServiceState) (m : String) (tp : Option String),
      m ≠ "" →
      lookupA s.cache_configs m = none →
      invalidate_cache s (some m) tp = .error (.valueError m)) ∧
    (∀ (s : ServiceState) (tp : Option String),
      invalidate_cache s (some "") tp = invalidate_cache s none tp) := by
  refine ⟨?_, ?_, ?_, ?_⟩
  · intro s items results m now mockCfg hm hmock
    constructor
    · unfold getConfigOrMock
      rw [hmock]
      dsimp only
      rw [hm]
      rfl
    · obtain ⟨s', hok, _⟩ :=
        store_embeddings_spec s items results m now (by rw [hmock]; rfl)
      exact ⟨s', hok⟩
  · intro s items m now rt hmock hstats htimes
    obtain ⟨cfg, hcfg⟩ := getConfigOrMock_ok s m hmock
    unfold get_cached_embeddings
    rw [hcfg]
    dsimp only
    cases items with
    | nil =>
        have hl : lookupLoop cfg m now [] s = .ok ([], [], s) := rfl
        rw [hl]
        dsimp only
        rw [htimes]
    | cons item rest =>
        rw [lookupLoop_stats_none cfg m now item rest s hstats]
  · intro s m tp hm0 hm
    have hyes : (lookupA s.cache_configs m).isNone = true := by
      rw [hm]
      rfl
    unfold invalidate_cache
    dsimp only
    rw [if_neg hm0, if_pos hyes]
  · intro s tp
    rfl

/-- C5 witness: invalidating an explicitly named unregistered model on a
freshly initialised service raises ValueError. -/
theorem claim_C5_witness :
    invalidate_cache (initService true [] 0) (some "absent") none =
      .error (.valueError "absent") :=
  claim_C5.2.2.1 (initService true [] 0) "absent" none (by decide) rfl


/-- C6 counterexample: the universal claim that two different model names
always yield different digests for the same text is false. There are more
model-name strings than 256-bit digests, so by pigeonhole two distinct model
names collide on any fixed text. -/
theorem claim_C6_counterexample :
    ¬ (∀ (t m1 m2 : String), m1 ≠ m2 →
        _generate_text_hash t m1 ≠ _generate_text_hash t m2) := by
  intro h
  exact generate_text_hash_not_injective "" (h "")

/-- C6 (amended): the key deriver is exactly the hex SHA-256 digest of the
UTF-8 bytes of "model_name:text"; it always yields 64 hex characters; it is
deterministic; and the five configured model names do produce five pairwise
distinct digests for a common sample text. -/
theorem claim_C6 :
    (∀ (text model_name : String),
      _generate_text_hash text model_name =
        sha256hex (strBytes (model_name ++ ":" ++ text))) ∧
    (∀ (text model_name : String),
      (_generate_text_hash text model_name).length = 64) ∧
    (∀ (t t' mo mo' : String), t = t' → mo = mo' →
      _generate_text_hash t mo = _generate_text_hash t' mo') ∧
    ((["mock", "kobert", "roberta", "onnx_kobert", "onnx_roberta"].map
        (fun mname => _generate_text_hash "hello" mname) =
      ["08db699b314b0e666fbf88c31c6b2f8627dc0269afba23539feec25d972efb51",
       "1c798e50595609f598c335636a6a3f84cedc1ee5337efff7e60606bc599cd610",
       "ca3abd3e97fb1b88c30d45fbd73327ffec85dfc4d2afa71b2015361dd7be8a95",
       "54655cba2f4d3dfaaa08dc89303b79f062e3098614a6a19213561caa87c7ae90",
       "a7db4acc861079067d60ade45c7e02febcfdba62e04aaea8e803321dec0b11a4"]) ∧
     (["08db699b314b0e666fbf88c31c6b2f8627dc0269afba23539feec25d972efb51",
       "1c798e50595609f598c335636a6a3f84cedc1ee5337efff7e60606bc599cd610",
       "ca3abd3e97fb1b88c30d45fbd73327ffec85dfc4d2afa71b2015361dd7be8a95",
       "54655cba2f4d3dfaaa08dc89303b79f062e3098614a6a19213561caa87c7ae90",
       "a7db4acc861079067d60ade45c7e02febcfdba62e04aaea8e803321dec0b11a4"] :
        List String).Nodup) := by
  refine ⟨fun _ _ => rfl, generate_text_hash_length, ?_, ?_, ?_⟩
  · intro t t' mo mo' h1 h2
    rw [h1, h2]
  · rfl
  · decide

/-- C6 witness: determinism instantiated at a concrete text and model. -/
theorem claim_C6_witness :
    _generate_text_hash "hello" "mock" = _generate_text_hash "hello" "mock" :=
  claim_C6.2.2.1 "hello" "hello" "mock" "mock" rfl rfl


/-- C9: invalidating one configured model empties exactly that model's memory
entries and deletes exactly that model's remote key space, leaving every
other model's memory value and remote keys untouched; invalidating with no
model name clears every configured model in both tiers. -/
theorem claim_C9 (s : ServiceState)
    (hconf : s.cache_configs = initialConfigs ∨
      s.cache_configs = (_initialize_redis false [] initialConfigs).2) :
    (∀ (m : String) (cfg : CacheConfig), lookupA s.cache_configs m = some cfg →
      invalidate_cache s (some m) none = .ok (clearOneModel s m none) ∧
      (∀ mc, lookupA s.memory_caches m = some mc →
        lookupA (clearOneModel s m none).memory_caches m =
          some { mc with entries := [] }) ∧
      (∀ m', m' ≠ m →
        lookupA (clearOneModel s m none).memory_caches m' =
          lookupA s.memory_caches m') ∧
      (∀ r, s.redis_client = some r →
        ∃ r', (clearOneModel s m none).redis_client = some r' ∧
          (∀ x, lookupA r' (cfg.redis_key_pref ++ x) = none) ∧
          (∀ (m' : String) (cfg' : CacheConfig) (x : String), m' ≠ m →
            lookupA s.cache_configs m' = some cfg' →
            lookupA r' (cfg'.redis_key_pref ++ x) =
              lookupA r (cfg'.redis_key_pref ++ x)))) ∧
    (∃ s'', invalidate_cache s none none = .ok s'' ∧
      ∀ (m' : String) (cfg' : CacheConfig),
        lookupA s.cache_configs m' = some cfg' →
        (∀ mc, lookupA s.memory_caches m' = some mc →
          lookupA s''.memory_caches m' = some { mc with entries := [] }) ∧
        (∀ r, s.redis_client = some r →
          ∃ rf, s''.redis_client = some rf ∧
            ∀ x, lookupA rf (cfg'.redis_key_pref ++ x) = none)) := by
  constructor
  · intro m cfg hm
    refine ⟨?_, ?_, ?_, ?_⟩
    · have hne0 : ¬ (m = "") := by
        rcases hconf with hcc | hcc
        · rw [hcc] at hm
          rcases lookupA_five _ _ _ _ _ _ _ _ _ _ _ _ hm with
            ⟨he, _⟩ | ⟨he, _⟩ | ⟨he, _⟩ | ⟨he, _⟩ | ⟨he, _⟩ <;> subst he <;> decide
        · rw [hcc, downgraded_configs_eq] at hm
          rcases lookupA_five _ _ _ _ _ _ _ _ _ _ _ _ hm with
            ⟨he, _⟩ | ⟨he, _⟩ | ⟨he, _⟩ | ⟨he, _⟩ | ⟨he, _⟩ <;> subst he <;> decide
      have hnn : ¬ ((lookupA s.cache_configs m).isNone = true) := by
        rw [hm]
        simp
      unfold invalidate_cache
      dsimp only
      rw [if_neg hne0, if_neg hnn]
    · intro mc hmc
      rw [clearOne_mem_self s m cfg hm, hmc]
      rfl
    · intro m' hne
      exact clearOne_mem_other s m m' none hne
    · intro r hr
      refine ⟨r.filter fun kv => !(globMatch kv.1 cfg.redis_key_pref none), ?_, ?_, ?_⟩
      · rw [clearOne_redis_self s m cfg hm, hr]
        rfl
      · intro x
        apply lookupA_filter_out
        intro v
        have hpref : globMatch (cfg.redis_key_pref ++ x) cfg.redis_key_pref none = true := by
          unfold globMatch
          show cfg.redis_key_pref.data.isPrefixOf
            (cfg.redis_key_pref.data ++ x.data) = true
          exact List.isPrefixOf_iff_prefix.mpr (List.prefix_append _ _)
        simp [hpref]
      · intro m' cfg' x hne hcfg'
        apply lookupA_filter_keep
        intro v
        have hfree := configs_prefix_free s.cache_configs hconf m m' cfg cfg' hne hm hcfg'
        have hnm : globMatch (cfg'.redis_key_pref ++ x) cfg.redis_key_pref none = false := by
          unfold globMatch
          show cfg.redis_key_pref.data.isPrefixOf
            ((cfg'.redis_key_pref ++ x).data) = false
          rw [String.data_append]
          exact isPrefixOf_append_false _ _ _ hfree.1 hfree.2
        simp [hnm]
  · refine ⟨(s.cache_configs.map Prod.fst).foldl
      (fun acc mm => clearOneModel acc mm none) s, rfl, ?_⟩
    intro m' cfg' hc'
    have hmem : m' ∈ s.cache_configs.map Prod.fst := by
      rw [← lookupA_isSome_iff_mem_fst]
      rw [hc']
      rfl
    exact clearFold_clears (s.cache_configs.map Prod.fst) s m' cfg' hc' hmem

/-- C9 witness: on a fresh service, invalidating "kobert" succeeds and is the
one-model clear. -/
theorem claim_C9_witness :
    invalidate_cache (initService true [] 0) (some "kobert") none =
      .ok (clearOneModel (initService true [] 0) "kobert" none) :=
  ((claim_C9 (initService true [] 0) (Or.inl rfl)).1 "kobert" kobertConfig rfl).1


end EmbedCache

